import Mathlib

/-!
# cron_next_epoch_time_this_line_should_execute.c

A shallow embedding of the input-normalisation code of
`cron_next_epoch_time_this_line_should_execute.c`: the two word-boundary
functions, the crontab-line splitter of `main`, the date-time parser
`try_to_parse_string_by_iso8601` and the reference-argument dispatch of `main`.

A C string is modelled by the list of the characters stored in memory from its
first byte on; a NUL terminator follows the list.  All string functions stop at
the first NUL, so a list without NUL is exactly the string it spells.  Offsets are
natural numbers (no string of this program reaches the range of `int`); a function
that returns `int` returns an `Int`, so that -1 can be told from an offset.
-/

namespace CronNext

/-! ## Strings -/

/-- The terminator of a C string (the source writes it `NULL`). -/
def NUL : Char := Char.ofNat 0

/-- Reading `string[i]`: the stored character, or the terminator that follows the list. -/
def charAt (s : List Char) (i : Nat) : Char := s.getD i NUL

/-- The C library `strlen`: number of characters before the first NUL. -/
def strlen : List Char → Nat
  | [] => 0
  | c :: cs => if c = NUL then 0 else strlen cs + 1

/-- The string a `char*` denotes: the characters before the first NUL.  This is what
`strcpy` and `strcat` copy. -/
def cstr : List Char → List Char
  | [] => []
  | c :: cs => if c = NUL then [] else c :: cstr cs

/-- The C library `strchr` for a character other than NUL: offset of the first
occurrence of `c` before the terminator, `none` for a null result. -/
def strchr : List Char → Char → Option Nat
  | [], _ => none
  | x :: xs, c =>
    if x = c then some 0
    else if x = NUL then none
    else (strchr xs c).map (· + 1)

/-! ## Word boundaries (source lines 36-60) -/

/-- The loop `while (string[pos] != NULL && string[pos] != ' ') pos = pos + 1;`. -/
def skip_nonspace_loop (s : List Char) : Nat → Nat → Nat
  | 0, pos => pos
  | fuel + 1, pos =>
    if charAt s pos ≠ NUL ∧ charAt s pos ≠ ' ' then skip_nonspace_loop s fuel (pos + 1)
    else pos

/-- The loop `while (string[pos] == ' ') pos = pos + 1;`. -/
def skip_space_loop (s : List Char) : Nat → Nat → Nat
  | 0, pos => pos
  | fuel + 1, pos =>
    if charAt s pos = ' ' then skip_space_loop s fuel (pos + 1)
    else pos

/-- Source function `position_of_beginning_of_next_word_boundary`.  The argument is
`none` for a NULL pointer.  Each loop is given `length + 1` iterations, which it never
uses up (`skip_nonspace_loop_eq`, `skip_space_loop_eq`). -/
def position_of_beginning_of_next_word_boundary (string : Option (List Char))
    (initial_pos : Nat) : Int :=
  match string with
  | none => -1
  | some s =>
    let pos := skip_nonspace_loop s (s.length + 1) initial_pos
    if charAt s pos = NUL then -1
    else
      let pos := skip_space_loop s (s.length + 1) pos
      (pos : Int)

/-- Source function `position_of_end_of_next_word_boundary`. -/
def position_of_end_of_next_word_boundary (string : Option (List Char))
    (initial_pos : Nat) : Int :=
  match string with
  | none => -1
  | some s => (skip_nonspace_loop s (s.length + 1) initial_pos : Int)

/-! ## The splitter of `main` (source lines 204-224) -/

/-- The three locals of `main` that the word walk updates. -/
structure WalkState where
  word_boundary_pos : Int
  last_word_boundary_pos : Int
  beginning_of_next_word_boundary : Int
  deriving DecidableEq, Repr

/-- One iteration of `for (i=0;i<6;i++)`; `Except.error 1` is `exit(1)`. -/
def walk_step (buf : List Char) (i : Nat) (st : WalkState) : Except Nat WalkState :=
  let b := position_of_beginning_of_next_word_boundary (some buf) st.word_boundary_pos.toNat
  if b ≠ -1 then
    .ok { word_boundary_pos := b, last_word_boundary_pos := st.word_boundary_pos,
          beginning_of_next_word_boundary := b }
  else if i < 5 then .error 1
  else .ok { st with beginning_of_next_word_boundary := b }

/-- The iterations `i, i+1, ..` of the loop, `n` of them. -/
def walk_loop (buf : List Char) : Nat → Nat → WalkState → Except Nat WalkState
  | 0, _, st => .ok st
  | n + 1, i, st =>
    match walk_step buf i st with
    | .error e => .error e
    | .ok st1 => walk_loop buf n (i + 1) st1

/-- What the splitter hands on: the schedule string given to `cron_parse_expr` and the
disposition, `none` when `beginning_of_next_word_boundary` ends as -1 (nothing printed). -/
structure Split where
  schedule : List Char
  disposition : Option (List Char)
  deriving DecidableEq, Repr

/-- Source lines 220-224 of `main`: when the last walk step did not return -1, the
schedule buffer is cut at the end of the word that starts at `last_word_boundary_pos`
and the text after the cut is copied out as the disposition. -/
def cut_disposition (cron_line_schedule : List Char) (st : WalkState) : Split :=
  if st.beginning_of_next_word_boundary ≠ -1 then
    let last_word_boundary_pos :=
      (position_of_end_of_next_word_boundary (some cron_line_schedule)
        st.last_word_boundary_pos.toNat).toNat
    let cron_line_disposition := cstr (cron_line_schedule.drop (last_word_boundary_pos + 1))
    { schedule := cstr (cron_line_schedule.set last_word_boundary_pos NUL),
      disposition := some cron_line_disposition }
  else
    { schedule := cstr cron_line_schedule, disposition := none }

/-- The locals of the word walk as `main` initialises them (lines 171-173). -/
def walk_init : WalkState :=
  { word_boundary_pos := 0, last_word_boundary_pos := 0,
    beginning_of_next_word_boundary := 0 }

/-- Size in bytes of each of the buffers `cron_line_disposition` and
`cron_line_schedule` (`malloc(sizeof(char)*1000)`, source lines 201-202). -/
def buffer_size : Nat := 1000

/-- How the splitter of `main` can end without handing a split on: `exit code` is the
call `exit(code)`; `overrun` is a write past the end of one of the two buffers, after
which C defines no behaviour. -/
inductive Stop where
  | exit (code : Nat)
  | overrun
  deriving DecidableEq, Repr

/-- Source lines 204-224 of `main` for `argv[1] = line`.  Lines 204-205 write
`"0 " ++ line` and its terminator, `2 + strlen(line) + 1` bytes, into
`cron_line_schedule`; the six-step walk follows (a failing step with `i < 5` is
`exit(1)`); line 222 writes the disposition and its terminator into
`cron_line_disposition`.  A write of more than `buffer_size` bytes is an overrun. -/
def main_split (line : List Char) : Except Stop Split :=
  if buffer_size < 2 + strlen line + 1 then .error .overrun
  else
    let cron_line_schedule := '0' :: ' ' :: cstr line
    match walk_loop cron_line_schedule 6 0 walk_init with
    | .error e => .error (.exit e)
    | .ok st =>
      let split := cut_disposition cron_line_schedule st
      match split.disposition with
      | some cron_line_disposition =>
        if buffer_size < cron_line_disposition.length + 1 then .error .overrun
        else .ok split
      | none => .ok split

/-- A crontab line of `13 + n` characters: `"0 22 * * fri "` followed by a sixth word
of `n` letters `a`. -/
def long_line (n : Nat) : List Char := "0 22 * * fri ".toList ++ List.replicate n 'a'

/-! ## Words of a line, as the specification counts them -/

/-- Number of words of `l`, a word being a maximal run of non-space characters;
`inWord` tells whether the character before `l` belongs to a word. -/
def wordCountAux : Bool → List Char → Nat
  | _, [] => 0
  | inWord, c :: cs =>
    if c = ' ' then wordCountAux false cs
    else (if inWord then 0 else 1) + wordCountAux true cs

/-- Number of words (maximal runs of non-space characters) of a line. -/
def wordCount (l : List Char) : Nat := wordCountAux false l

/-- The character is a space. -/
def isSp (c : Char) : Bool := decide (c = ' ')

/-- The character is not a space. -/
def nonSp (c : Char) : Bool := decide (c ≠ ' ')

/-- The list is empty or begins with a non-space character. -/
def startsWord (l : List Char) : Prop := l.head? ≠ some ' '

/-- Offset in `l` just past its `n`-th word (`n ≥ 1`): skip the spaces before the word,
then the word, `n` times over.  When a space follows the `n`-th word this is the offset
of the first space after it. -/
def endOfWord : Nat → List Char → Nat
  | 0, _ => 0
  | n + 1, l =>
    let sp := (l.takeWhile isSp).length
    let w := ((l.drop sp).takeWhile nonSp).length
    sp + w + endOfWord n (l.drop (sp + w))

/-- Offset in `l` of the first character of its `n`-th word (`n ≥ 1`): the offset just
past word `n - 1`, moved past the spaces that follow. -/
def startOfWord (n : Nat) (l : List Char) : Nat :=
  endOfWord (n - 1) l + ((l.drop (endOfWord (n - 1) l)).takeWhile isSp).length

/-! ## The date-time parser (source lines 69-143) -/

/-- The fields of `struct tm`. -/
structure Tm where
  tm_sec : Int
  tm_min : Int
  tm_hour : Int
  tm_mday : Int
  tm_mon : Int
  tm_year : Int
  tm_wday : Int
  tm_yday : Int
  tm_isdst : Int
  tm_gmtoff : Int
  tm_zone : List Char
  deriving DecidableEq, Repr

/-- The C library `isspace` in the C locale. -/
def isspace (c : Char) : Bool :=
  c = ' ' || (9 ≤ c.toNat && c.toNat ≤ 13)

/-- The C library `isdigit`. -/
def isdigit (c : Char) : Bool := 48 ≤ c.toNat && c.toNat ≤ 57

/-- The digit loop of `atoi`: accumulate decimal digits until the first other character. -/
def atoi_digits : Nat → List Char → Nat
  | acc, [] => acc
  | acc, c :: cs => if isdigit c then atoi_digits (10 * acc + (c.toNat - 48)) cs else acc

/-- The C library `atoi` on the characters of a buffer: leading white space, an optional
sign, then decimal digits; it stops at the first character that is no digit, the
terminator included. -/
def atoi (s : List Char) : Int :=
  let t := s.dropWhile isspace
  if t.head? = some '-' then -(atoi_digits 0 t.tail : Int)
  else if t.head? = some '+' then (atoi_digits 0 t.tail : Int)
  else (atoi_digits 0 t : Int)

/-- Reading `string[i]` where `i` may lie past the terminator: `past k` is the byte
stored `k + 1` places after the terminator, which the string does not determine. -/
def memAt (s : List Char) (past : Nat → Char) (i : Nat) : Char :=
  if i ≤ s.length then charAt s i else past (i - s.length - 1)

/-- The delimiter search of source lines 85-90: the first space if the string has one,
else the first `T`; `none` when both `strchr` calls give a null pointer. -/
def time_delimiter_pos (string : List Char) : Option Nat :=
  match strchr string ' ' with
  | some i => some i
  | none => strchr string 'T'

/-- The test of source line 93 on the delimiter offset. -/
def layout_test (string : List Char) (time_delimiter_index : Nat) : Bool :=
  (time_delimiter_index = 8 || time_delimiter_index = 10) &&
    decide (((strlen string : Int) - (time_delimiter_index : Int)) ≥ 4)

/-- The value `index_offset` has after source lines 94-95. -/
def index_offset_of (time_delimiter_index : Nat) : Nat :=
  if time_delimiter_index = 10 then 1 else 0

/-- Source lines 99-102: `year`. -/
def extract_year (string : List Char) (past : Nat → Char) : Int :=
  atoi [memAt string past 0, memAt string past 1, memAt string past 2, memAt string past 3,
    NUL]

/-- Source lines 103-106: `month`. -/
def extract_month (string : List Char) (past : Nat → Char) (index_offset : Nat) : Int :=
  atoi [memAt string past (4 + index_offset), memAt string past (5 + index_offset), NUL]

/-- Source lines 107-110: `day`. -/
def extract_day (string : List Char) (past : Nat → Char) (index_offset : Nat) : Int :=
  atoi [memAt string past (6 + index_offset * 2), memAt string past (7 + index_offset * 2),
    NUL]

/-- Source lines 111-114: `hour`. -/
def extract_hour (string : List Char) (past : Nat → Char) (index_offset : Nat) : Int :=
  atoi [memAt string past (9 + index_offset * 2), memAt string past (10 + index_offset * 2),
    NUL]

/-- Source lines 115-123: `minute`. -/
def extract_minute (string : List Char) (past : Nat → Char) (index_offset : Nat) : Int :=
  if memAt string past (11 + index_offset * 2) = ':' then
    atoi [memAt string past (12 + index_offset * 2), memAt string past (13 + index_offset * 2),
      NUL]
  else
    atoi [memAt string past (11 + index_offset * 2), memAt string past (12 + index_offset * 2),
      NUL]

/-- The condition of source line 125. -/
def fields_in_range (year month day hour : Int) : Bool :=
  decide (year ≥ 1900 ∧ year ≤ 2038 ∧ month ≥ 1 ∧ month ≤ 12 ∧ day ≥ 1 ∧ day ≤ 31 ∧
    hour ≥ 0 ∧ hour ≤ 23)

/-- Source function `try_to_parse_string_by_iso8601`.  `current_time` is the value of
`*localtime(&rawtime)` at line 128 and `ts` the contents of the output structure on
entry.  The first component is the value returned; it is `none` when control reaches
the closing brace of the function without a `return` statement (line 143), where C
leaves the value undefined.  The second component is the output structure on exit. -/
def try_to_parse_string_by_iso8601 (string : List Char) (past : Nat → Char)
    (current_time : Tm) (ts : Tm) : Option Int × Tm :=
  match time_delimiter_pos string with
  | none => (some (-1), ts)
  | some time_delimiter_index =>
    if layout_test string time_delimiter_index then
      let index_offset := index_offset_of time_delimiter_index
      let year := extract_year string past
      let month := extract_month string past index_offset
      let day := extract_day string past index_offset
      let hour := extract_hour string past index_offset
      let minute := extract_minute string past index_offset
      if fields_in_range year month day hour then
        (some 1,
          { ts with
            tm_gmtoff := current_time.tm_gmtoff
            tm_zone := current_time.tm_zone
            tm_isdst := current_time.tm_isdst
            tm_year := year - 1900
            tm_mon := month - 1
            tm_mday := day
            tm_hour := hour
            tm_min := minute
            tm_sec := 0 })
      else (some 0, ts)
    else (none, ts)

/-- The offsets at which source lines 99-121 read `string`, in the order of the reads,
for a string that passed the test of line 93. -/
def parse_read_offsets (string : List Char) (past : Nat → Char) (index_offset : Nat) :
    List Nat :=
  [0, 1, 2, 3, 4 + index_offset, 5 + index_offset, 6 + index_offset * 2,
    7 + index_offset * 2, 9 + index_offset * 2, 10 + index_offset * 2,
    11 + index_offset * 2] ++
  (if memAt string past (11 + index_offset * 2) = ':' then
    [12 + index_offset * 2, 13 + index_offset * 2]
  else
    [11 + index_offset * 2, 12 + index_offset * 2])

/-- Offset of the first character of `s` that satisfies `p`. -/
def find_first (p : Char → Bool) : List Char → Option Nat
  | [] => none
  | c :: cs => if p c then some 0 else (find_first p cs).map (· + 1)

/-- The delimiter offset as the specification words it: the first occurrence of a space
or of the letter `T`, whichever comes first. -/
def first_space_or_T (s : List Char) : Option Nat :=
  find_first (fun c => decide (c = ' ') || decide (c = 'T')) s

/-! ## Rendering (source line 270) -/

/-- The decimal digit character of `n % 10`. -/
def digitChar (n : Nat) : Char := Char.ofNat (48 + n % 10)

/-- Two decimal digits, zero padded (`%02d` for a value below 100). -/
def pad2 (n : Nat) : List Char := [digitChar (n / 10), digitChar n]

/-- Four decimal digits, zero padded (a year below 10000). -/
def pad4 (n : Nat) : List Char :=
  [digitChar (n / 1000), digitChar (n / 100), digitChar (n / 10), digitChar n]

/-- The C library `strftime` with the format `"%FT%H:%M:00"` of source line 270, for a
year in 0..9999 and non-negative two-digit fields: `YYYY-MM-DDTHH:MM:00`. -/
def strftime_iso8601 (ts : Tm) : List Char :=
  pad4 (ts.tm_year + 1900).toNat ++ '-' :: pad2 (ts.tm_mon + 1).toNat ++
    '-' :: pad2 ts.tm_mday.toNat ++ 'T' :: pad2 ts.tm_hour.toNat ++
    ':' :: pad2 ts.tm_min.toNat ++ [':', '0', '0']

/-! ## The input layouts of the specification -/

/-- The compact layout `YYYYMMDDTHHMM`. -/
def compact_datetime (year month day hour minute : Nat) : List Char :=
  pad4 year ++ pad2 month ++ pad2 day ++ 'T' :: (pad2 hour ++ pad2 minute)

/-- The separated layout `YYYY-MM-DD HH:MM` with a space delimiter. -/
def separated_datetime (year month day hour minute : Nat) : List Char :=
  pad4 year ++ '-' :: pad2 month ++ '-' :: pad2 day ++ ' ' :: pad2 hour ++ ':' :: pad2 minute

/-- The separated layout with seconds, `YYYY-MM-DD HH:MM:SS`. -/
def separated_datetime_seconds (year month day hour minute second : Nat) : List Char :=
  separated_datetime year month day hour minute ++ ':' :: pad2 second

/-- The civil output `YYYY-MM-DDTHH:MM:00`. -/
def civil_output (year month day hour minute : Nat) : List Char :=
  pad4 year ++ '-' :: pad2 month ++ '-' :: pad2 day ++ 'T' :: pad2 hour ++
    ':' :: pad2 minute ++ [':', '0', '0']

/-- The date part of a reference string: `YYYY-MM-DD` when `separated`, else
`YYYYMMDD`. -/
def date_part (separated : Bool) (year month day : Nat) : List Char :=
  if separated then pad4 year ++ '-' :: pad2 month ++ '-' :: pad2 day
  else pad4 year ++ pad2 month ++ pad2 day

/-- The time-of-day part of a reference string: `HH:MM` when `colon`, else `HHMM`. -/
def time_part (colon : Bool) (hour minute : Nat) : List Char :=
  if colon then pad2 hour ++ ':' :: pad2 minute else pad2 hour ++ pad2 minute

/-- A reference string: date part, the delimiter `d`, time-of-day part. -/
def datetime_string (separated colon : Bool) (d : Char) (year month day hour minute : Nat) :
    List Char :=
  date_part separated year month day ++ d :: time_part colon hour minute

/-- A sample `struct tm` (1970-01-01T00:00:00, a Thursday, no daylight saving). -/
def sample_tm : Tm :=
  { tm_sec := 0, tm_min := 0, tm_hour := 0, tm_mday := 1, tm_mon := 0, tm_year := 70,
    tm_wday := 4, tm_yday := 0, tm_isdst := 0, tm_gmtoff := 0, tm_zone := ['U', 'T', 'C'] }

/-- Sample bytes past the terminator of a string. -/
def sample_past : Nat → Char := fun _ => 'x'

/-! ## The reference argument in `main` (source lines 165-168 and 226-252) -/

/-- The host facilities `main` calls.  `time` is the value every call of `time()` in
one run returns (one clock snapshot), `mktime` returns the epoch value together with the
normalised structure, and `atof_time_t s` is `(time_t) atof(s)`. -/
structure Host where
  time : Int
  localtime : Int → Tm
  mktime : Tm → Int × Tm
  atof_time_t : List Char → Int

/-- The locals of `main` that the reference argument decides. -/
structure Start where
  cur : Int
  use_iso8601_datetime_format : Int
  ts : Tm
  deriving DecidableEq, Repr

/-- The now-based start of source lines 233-237 and 247-251. -/
def start_from_now (h : Host) (use_iso8601_datetime_format : Int) : Start :=
  let daylight_savings := (h.localtime h.time).tm_isdst
  let cur := h.time
  let ts := h.localtime cur
  let ts := { ts with tm_sec := 0 }
  let ts := { ts with tm_isdst := daylight_savings }
  { cur := (h.mktime ts).1, use_iso8601_datetime_format := use_iso8601_datetime_format,
    ts := (h.mktime ts).2 }

/-- Source lines 226-252 of `main`.  `argv2` is `none` when `argc == 2`; `ts` and `cur`
are the uninitialised contents of the locals.  The result is `none` when the `switch`
reads a return value that the parser left undefined. -/
def main_reference (h : Host) (past : Nat → Char) (argv2 : Option (List Char))
    (ts : Tm) (cur : Int) : Option Start :=
  match argv2 with
  | some arg =>
    match try_to_parse_string_by_iso8601 arg past (h.localtime h.time) ts with
    | (none, _) => none
    | (some r, ts1) =>
      if r = -1 then
        some { cur := h.atof_time_t arg, use_iso8601_datetime_format := 0, ts := ts1 }
      else if r = 0 then
        some (start_from_now h 1)
      else if r = 1 then
        some { cur := (h.mktime ts1).1, use_iso8601_datetime_format := 1,
               ts := (h.mktime ts1).2 }
      else
        some { cur := cur, use_iso8601_datetime_format := 0, ts := ts1 }
  | none => some (start_from_now h 0)

/-- A sample host: time 1569016800, every local time the sample one, `mktime`
returning 0, and `atof` reading a decimal integer as `atoi` does. -/
def sample_host : Host :=
  { time := 1569016800, localtime := fun _ => sample_tm, mktime := fun t => (0, t),
    atof_time_t := atoi }

/-! ## Lemmas on strings and loops -/

theorem charAt_eq_headD (s : List Char) (i : Nat) : charAt s i = (s.drop i).headD NUL := by
  induction s generalizing i with
  | nil => simp [charAt]
  | cons c t ih =>
    cases i with
    | zero => simp [charAt]
    | succ j => simp [charAt]

theorem drop_succ_of_drop_cons {s : List Char} {pos : Nat} {c : Char} {t : List Char}
    (h : s.drop pos = c :: t) : s.drop (pos + 1) = t := by
  have h1 : (s.drop pos).drop 1 = t := by rw [h]; rfl
  rw [List.drop_drop] at h1
  rw [← h1]

theorem drop_length_takeWhile (p : Char → Bool) (l : List Char) :
    l.drop (l.takeWhile p).length = l.dropWhile p := by
  induction l with
  | nil => rfl
  | cons c t ih =>
    by_cases hc : p c = true
    · simp [List.takeWhile_cons, List.dropWhile_cons, hc, ih]
    · simp [List.takeWhile_cons, List.dropWhile_cons, hc]

theorem takeWhile_dropWhile_self (p : Char → Bool) (l : List Char) :
    (l.dropWhile p).takeWhile p = [] := by
  induction l with
  | nil => rfl
  | cons c t ih =>
    by_cases hc : p c = true
    · simp [List.dropWhile_cons, hc, ih]
    · simp [List.dropWhile_cons, List.takeWhile_cons, hc]

/-- The first loop never runs out of iterations: it stops at the first terminator or
space at or after `pos`. -/
theorem skip_nonspace_loop_eq (s : List Char) :
    ∀ (fuel pos : Nat), (s.drop pos).length < fuel →
      skip_nonspace_loop s fuel pos =
        pos + ((s.drop pos).takeWhile (fun c => decide (c ≠ NUL) && nonSp c)).length := by
  intro fuel
  induction fuel with
  | zero => intro pos h; omega
  | succ k ih =>
    intro pos h
    cases hd : s.drop pos with
    | nil => simp [skip_nonspace_loop, charAt_eq_headD, hd]
    | cons c t =>
      have ht : s.drop (pos + 1) = t := drop_succ_of_drop_cons hd
      by_cases hc : c ≠ NUL ∧ c ≠ ' '
      · have hlt : (s.drop (pos + 1)).length < k := by
          rw [ht]; rw [hd] at h; simp at h; omega
        rw [skip_nonspace_loop, if_pos (by simpa [charAt_eq_headD, hd] using hc), ih _ hlt, ht]
        simp [List.takeWhile_cons, nonSp, hc]
        omega
      · rw [skip_nonspace_loop, if_neg (by simpa [charAt_eq_headD, hd] using hc)]
        have : (decide (c ≠ NUL) && nonSp c) = false := by
          simp only [nonSp, ← Bool.decide_and, decide_eq_false_iff_not]; exact hc
        rw [List.takeWhile_cons, this]; simp

/-- The second loop never runs out of iterations: it stops at the first non-space
character (or terminator) at or after `pos`. -/
theorem skip_space_loop_eq (s : List Char) :
    ∀ (fuel pos : Nat), (s.drop pos).length < fuel →
      skip_space_loop s fuel pos = pos + ((s.drop pos).takeWhile isSp).length := by
  intro fuel
  induction fuel with
  | zero => intro pos h; omega
  | succ k ih =>
    intro pos h
    cases hd : s.drop pos with
    | nil =>
      have : NUL ≠ ' ' := by decide
      simp [skip_space_loop, charAt_eq_headD, hd, this]
    | cons c t =>
      have ht : s.drop (pos + 1) = t := drop_succ_of_drop_cons hd
      by_cases hc : c = ' '
      · have hlt : (s.drop (pos + 1)).length < k := by
          rw [ht]; rw [hd] at h; simp at h; omega
        rw [skip_space_loop, if_pos (by simpa [charAt_eq_headD, hd] using hc), ih _ hlt, ht]
        simp [List.takeWhile_cons, isSp, hc]
        omega
      · rw [skip_space_loop, if_neg (by simpa [charAt_eq_headD, hd] using hc)]
        simp [List.takeWhile_cons, isSp, hc]

theorem drop_add_takeWhile (p : Char → Bool) (s : List Char) (pos : Nat) :
    s.drop (pos + ((s.drop pos).takeWhile p).length) = (s.drop pos).dropWhile p := by
  rw [← drop_length_takeWhile p (s.drop pos), List.drop_drop]

theorem takeWhile_nonNul (l : List Char) (h : NUL ∉ l) :
    l.takeWhile (fun c => decide (c ≠ NUL) && nonSp c) = l.takeWhile nonSp := by
  induction l with
  | nil => rfl
  | cons c t ih =>
    have hc : c ≠ NUL := fun e => h (by simp [e])
    have ht : NUL ∉ t := fun e => h (List.mem_cons_of_mem _ e)
    rw [List.takeWhile_cons, List.takeWhile_cons, ih ht]; simp [hc]

theorem nul_not_mem_drop {s : List Char} (h : NUL ∉ s) (n : Nat) : NUL ∉ s.drop n :=
  fun e => h (List.mem_of_mem_drop e)

theorem cstr_eq_self (s : List Char) (h : NUL ∉ s) : cstr s = s := by
  induction s with
  | nil => rfl
  | cons c t ih =>
    have hc : c ≠ NUL := fun e => h (by simp [e])
    have ht : NUL ∉ t := fun e => h (List.mem_cons_of_mem _ e)
    simp [cstr, hc, ih ht]

theorem cstr_set_nul (s : List Char) (h : NUL ∉ s) (e : Nat) :
    cstr (s.set e NUL) = s.take e := by
  induction s generalizing e with
  | nil => simp [cstr]
  | cons c t ih =>
    have hc : c ≠ NUL := fun e => h (by simp [e])
    have ht : NUL ∉ t := fun e => h (List.mem_cons_of_mem _ e)
    cases e with
    | zero => simp [cstr]
    | succ k => simp [cstr, hc, ih ht]

theorem headD_eq_nul_iff (l : List Char) (h : NUL ∉ l) : l.headD NUL = NUL ↔ l = [] := by
  cases l with
  | nil => simp
  | cons c t =>
    have hc : c ≠ NUL := fun e => h (by simp [e])
    simp [hc]

/-- On a string without NUL the first loop stops at the first space at or after `pos`,
or at the end of the string. -/
theorem skip_nonspace_eq (s : List Char) (hs : NUL ∉ s) (pos : Nat) :
    skip_nonspace_loop s (s.length + 1) pos = pos + ((s.drop pos).takeWhile nonSp).length := by
  rw [skip_nonspace_loop_eq s _ _ (by simp; omega), takeWhile_nonNul _ (nul_not_mem_drop hs _)]

/-- What one call of the word walk returns on a string without NUL, in terms of the
part of the string from `pos` on. -/
theorem begin_eq (s : List Char) (hs : NUL ∉ s) (pos : Nat) :
    position_of_beginning_of_next_word_boundary (some s) pos =
      if (s.drop pos).dropWhile nonSp = [] then -1
      else ((pos + ((s.drop pos).takeWhile nonSp).length +
              (((s.drop pos).dropWhile nonSp).takeWhile isSp).length : Nat) : Int) := by
  simp only [position_of_beginning_of_next_word_boundary]
  rw [skip_nonspace_eq s hs, charAt_eq_headD, drop_add_takeWhile]
  have hnn := headD_eq_nul_iff ((s.drop pos).dropWhile nonSp)
    (fun e => nul_not_mem_drop hs pos ((List.dropWhile_suffix _).subset e))
  by_cases h : (s.drop pos).dropWhile nonSp = []
  · rw [if_pos (hnn.mpr h), if_pos h]
  · rw [if_neg (fun e => h (hnn.mp e)), if_neg h, skip_space_loop_eq s _ _ (by simp; omega),
      drop_add_takeWhile]

/-- What `position_of_end_of_next_word_boundary` returns on a string without NUL. -/
theorem end_eq (s : List Char) (hs : NUL ∉ s) (pos : Nat) :
    position_of_end_of_next_word_boundary (some s) pos =
      ((pos + ((s.drop pos).takeWhile nonSp).length : Nat) : Int) := by
  simp only [position_of_end_of_next_word_boundary]
  rw [skip_nonspace_eq s hs]

/-! ## Lemmas on words -/

theorem wordCountAux_true (l : List Char) :
    wordCountAux true l = wordCountAux false (l.dropWhile nonSp) := by
  induction l with
  | nil => rfl
  | cons c t ih =>
    by_cases hc : c = ' '
    · simp [wordCountAux, List.dropWhile_cons, nonSp, hc]
    · simp [wordCountAux, List.dropWhile_cons, nonSp, hc, ih]

theorem wordCountAux_dropSpaces (l : List Char) :
    wordCountAux false l = wordCountAux false (l.dropWhile isSp) := by
  induction l with
  | nil => rfl
  | cons c t ih =>
    by_cases hc : c = ' '
    · simp [wordCountAux, List.dropWhile_cons, isSp, hc, ih]
    · simp [wordCountAux, List.dropWhile_cons, isSp, hc]

theorem startsWord_dropWhile_isSp (l : List Char) : startsWord (l.dropWhile isSp) := by
  induction l with
  | nil => simp [startsWord]
  | cons c t ih =>
    by_cases hc : c = ' '
    · simpa [List.dropWhile_cons, isSp, hc] using ih
    · simp [List.dropWhile_cons, isSp, hc, startsWord]

theorem takeWhile_isSp_of_startsWord {l : List Char} (h : startsWord l) :
    l.takeWhile isSp = [] := by
  cases l with
  | nil => rfl
  | cons c t =>
    have hc : c ≠ ' ' := by simpa [startsWord] using h
    simp [List.takeWhile_cons, isSp, hc]

/-- From the start of a word with a further word behind it, the rest after the word is
not empty and holds one word less. -/
theorem wordCount_next {l : List Char} (h : startsWord l) (h2 : 2 ≤ wordCount l) :
    l.dropWhile nonSp ≠ [] ∧
      wordCount ((l.dropWhile nonSp).dropWhile isSp) + 1 = wordCount l := by
  cases l with
  | nil => simp [wordCount, wordCountAux] at h2
  | cons c t =>
    have hc : c ≠ ' ' := by simpa [startsWord] using h
    have e1 : wordCount (c :: t) = 1 + wordCountAux false (t.dropWhile nonSp) := by
      simp [wordCount, wordCountAux, hc, wordCountAux_true]
    have e2 : (c :: t).dropWhile nonSp = t.dropWhile nonSp := by
      simp [List.dropWhile_cons, nonSp, hc]
    rw [e2]
    constructor
    · intro hnil
      rw [e1, hnil] at h2
      simp [wordCountAux] at h2
    · rw [e1, wordCount, ← wordCountAux_dropSpaces]; omega

theorem endOfWord_dropSpaces (n : Nat) (l : List Char) :
    endOfWord (n + 1) l = (l.takeWhile isSp).length + endOfWord (n + 1) (l.dropWhile isSp) := by
  simp only [endOfWord]
  rw [takeWhile_dropWhile_self, drop_length_takeWhile]
  simp only [List.length_nil, List.drop_zero, Nat.zero_add]
  rw [← drop_length_takeWhile isSp l, List.drop_drop]
  omega

theorem endOfWord_one {l : List Char} (h : startsWord l) :
    endOfWord 1 l = (l.takeWhile nonSp).length := by
  simp [endOfWord, takeWhile_isSp_of_startsWord h]

theorem endOfWord_succ {l : List Char} (h : startsWord l) (n : Nat) :
    endOfWord (n + 2) l = (l.takeWhile nonSp).length +
      ((l.dropWhile nonSp).takeWhile isSp).length +
      endOfWord (n + 1) ((l.dropWhile nonSp).dropWhile isSp) := by
  rw [endOfWord]
  simp only [takeWhile_isSp_of_startsWord h, List.length_nil, List.drop_zero, Nat.zero_add]
  rw [drop_length_takeWhile, endOfWord_dropSpaces]
  omega

theorem dropWhile_nonSp_cases (l : List Char) :
    l.dropWhile nonSp = [] ∨ ∃ t, l.dropWhile nonSp = ' ' :: t := by
  induction l with
  | nil => exact Or.inl rfl
  | cons c t ih =>
    by_cases hc : c = ' '
    · right; exact ⟨t, by simp [List.dropWhile_cons, nonSp, hc]⟩
    · simpa [List.dropWhile_cons, nonSp, hc] using ih

/-! ## The six-step walk -/

/-- A step of the walk that starts at `pos` with a space somewhere behind it succeeds
and moves past the run of spaces that follows the word. -/
theorem walk_step_ok (buf : List Char) (hb : NUL ∉ buf) (i pos : Nat) (st : WalkState)
    (hst : st.word_boundary_pos = (pos : Int))
    (hne : (buf.drop pos).dropWhile nonSp ≠ []) :
    walk_step buf i st =
      .ok { word_boundary_pos :=
              ((pos + ((buf.drop pos).takeWhile nonSp).length +
                (((buf.drop pos).dropWhile nonSp).takeWhile isSp).length : Nat) : Int),
            last_word_boundary_pos := (pos : Int),
            beginning_of_next_word_boundary :=
              ((pos + ((buf.drop pos).takeWhile nonSp).length +
                (((buf.drop pos).dropWhile nonSp).takeWhile isSp).length : Nat) : Int) } := by
  simp only [walk_step, hst, Int.toNat_ofNat]
  rw [begin_eq buf hb, if_neg hne, if_pos (by omega)]

/-- From the start of a word with at least `n + 1` further words behind it, `n + 1`
steps of the walk all succeed.  The walk ends with `last_word_boundary_pos = q`, the
start of the `(n+1)`-th word counted from `pos`, and `word_boundary_pos = r`, the
offset just past the spaces that follow that word. -/
theorem walk_loop_ok (buf : List Char) (hb : NUL ∉ buf) :
    ∀ (n i pos : Nat) (st : WalkState), st.word_boundary_pos = (pos : Int) →
      startsWord (buf.drop pos) → n + 2 ≤ wordCount (buf.drop pos) →
      ∃ q r : Nat,
        walk_loop buf (n + 1) i st =
          .ok { word_boundary_pos := (r : Int), last_word_boundary_pos := (q : Int),
                beginning_of_next_word_boundary := (r : Int) } ∧
        q + ((buf.drop q).takeWhile nonSp).length = pos + endOfWord (n + 1) (buf.drop pos) ∧
        (buf.drop q).dropWhile nonSp ≠ [] ∧
        r = q + ((buf.drop q).takeWhile nonSp).length +
              (((buf.drop q).dropWhile nonSp).takeWhile isSp).length := by
  intro n
  induction n with
  | zero =>
    intro i pos st hst hsw hwc
    obtain ⟨hne, _⟩ := wordCount_next hsw (by omega)
    refine ⟨pos, _, ?_, ?_, hne, rfl⟩
    · simp only [walk_loop]
      rw [walk_step_ok buf hb i pos st hst hne]
    · rw [endOfWord_one hsw]
  | succ k ih =>
    intro i pos st hst hsw hwc
    obtain ⟨hne, hcnt⟩ := wordCount_next hsw (by omega)
    have hdrop : buf.drop (pos + ((buf.drop pos).takeWhile nonSp).length +
        (((buf.drop pos).dropWhile nonSp).takeWhile isSp).length) =
        ((buf.drop pos).dropWhile nonSp).dropWhile isSp := by
      rw [← drop_add_takeWhile nonSp buf pos, drop_add_takeWhile isSp]
    obtain ⟨q, r, hrun, hq, hqne, hr⟩ := ih (i + 1)
      (pos + ((buf.drop pos).takeWhile nonSp).length +
        (((buf.drop pos).dropWhile nonSp).takeWhile isSp).length)
      { word_boundary_pos :=
          ((pos + ((buf.drop pos).takeWhile nonSp).length +
            (((buf.drop pos).dropWhile nonSp).takeWhile isSp).length : Nat) : Int),
        last_word_boundary_pos := (pos : Int),
        beginning_of_next_word_boundary :=
          ((pos + ((buf.drop pos).takeWhile nonSp).length +
            (((buf.drop pos).dropWhile nonSp).takeWhile isSp).length : Nat) : Int) } rfl
      (by rw [hdrop]; exact startsWord_dropWhile_isSp _) (by rw [hdrop]; omega)
    refine ⟨q, r, ?_, ?_, hqne, hr⟩
    · rw [walk_loop, walk_step_ok buf hb i pos st hst hne]
      exact hrun
    · rw [hq, hdrop, endOfWord_succ hsw]
      omega

theorem endOfWord_prefixed (n : Nat) (line : List Char) :
    endOfWord (n + 2) ('0' :: ' ' :: line) = 2 + endOfWord (n + 1) line := by
  have hsw : startsWord ('0' :: ' ' :: line) := by simp [startsWord]
  have h0 : ('0' : Char) ≠ ' ' := by decide
  rw [endOfWord_succ hsw, endOfWord_dropSpaces n line]
  simp [List.takeWhile_cons, List.dropWhile_cons, nonSp, isSp, h0]
  omega

theorem nul_not_mem_prefixed {line : List Char} (h : NUL ∉ line) :
    NUL ∉ ('0' :: ' ' :: line) := by
  have h0 : NUL ≠ '0' := by decide
  have h1 : NUL ≠ ' ' := by decide
  simp [h0, h1, h]

/-! ## Lemmas on digits and `atoi` -/

theorem digitChar_props (n : Nat) :
    isdigit (digitChar n) = true ∧ (digitChar n).toNat - 48 = n % 10 ∧
      isspace (digitChar n) = false ∧ digitChar n ≠ ' ' ∧ digitChar n ≠ 'T' ∧
      digitChar n ≠ NUL ∧ digitChar n ≠ ':' ∧ digitChar n ≠ '-' ∧ digitChar n ≠ '+' := by
  have h : n % 10 < 10 := Nat.mod_lt _ (by decide)
  unfold digitChar
  generalize n % 10 = k at h
  interval_cases k <;> decide

theorem atoi_samples :
    atoi " 12".toList = 12 ∧ atoi "-7x".toList = -7 ∧ atoi "x1".toList = 0 ∧ atoi [] = 0 := by
  decide

theorem digitChar_isdigit (n : Nat) : isdigit (digitChar n) = true := (digitChar_props n).1
theorem digitChar_val (n : Nat) : (digitChar n).toNat - 48 = n % 10 := (digitChar_props n).2.1
theorem digitChar_not_isspace (n : Nat) : isspace (digitChar n) = false :=
  (digitChar_props n).2.2.1
theorem digitChar_ne_space (n : Nat) : digitChar n ≠ ' ' := (digitChar_props n).2.2.2.1
theorem digitChar_ne_T (n : Nat) : digitChar n ≠ 'T' := (digitChar_props n).2.2.2.2.1
theorem digitChar_ne_nul (n : Nat) : digitChar n ≠ NUL := (digitChar_props n).2.2.2.2.2.1
theorem digitChar_ne_colon (n : Nat) : digitChar n ≠ ':' := (digitChar_props n).2.2.2.2.2.2.1
theorem digitChar_ne_minus (n : Nat) : digitChar n ≠ '-' := (digitChar_props n).2.2.2.2.2.2.2.1
theorem digitChar_ne_plus (n : Nat) : digitChar n ≠ '+' := (digitChar_props n).2.2.2.2.2.2.2.2

theorem isdigit_nul : isdigit NUL = false := by decide

/-- The value `atoi` reads from two digits followed by the terminator. -/
theorem atoi_two_digits (a b : Nat) :
    atoi [digitChar a, digitChar b, NUL] = ((a % 10 * 10 + b % 10 : Nat) : Int) := by
  simp [atoi, atoi_digits, List.dropWhile_cons, digitChar_not_isspace, digitChar_ne_minus,
    digitChar_ne_plus, digitChar_isdigit, digitChar_val, isdigit_nul]
  omega

/-- The value `atoi` reads from four digits followed by the terminator. -/
theorem atoi_four_digits (a b c d : Nat) :
    atoi [digitChar a, digitChar b, digitChar c, digitChar d, NUL] =
      ((a % 10 * 1000 + b % 10 * 100 + c % 10 * 10 + d % 10 : Nat) : Int) := by
  simp [atoi, atoi_digits, List.dropWhile_cons, digitChar_not_isspace, digitChar_ne_minus,
    digitChar_ne_plus, digitChar_isdigit, digitChar_val, isdigit_nul]
  omega

theorem atoi_pad2 (n : Nat) (h : n < 100) :
    atoi [digitChar (n / 10), digitChar n, NUL] = (n : Int) := by
  rw [atoi_two_digits]; congr 1; omega

theorem atoi_pad4 (n : Nat) (h : n < 10000) :
    atoi [digitChar (n / 1000), digitChar (n / 100), digitChar (n / 10), digitChar n, NUL] =
      (n : Int) := by
  rw [atoi_four_digits]; congr 1; omega

/-! ## The parser on the layouts of the specification -/

theorem T_ne_space : ('T' : Char) ≠ ' ' := by decide
theorem T_ne_nul : ('T' : Char) ≠ NUL := by decide
theorem minus_ne_space : ('-' : Char) ≠ ' ' := by decide
theorem minus_ne_nul : ('-' : Char) ≠ NUL := by decide
theorem minus_ne_T : ('-' : Char) ≠ 'T' := by decide
theorem space_ne_nul : (' ' : Char) ≠ NUL := by decide
theorem colon_ne_space : (':' : Char) ≠ ' ' := by decide
theorem colon_ne_nul : (':' : Char) ≠ NUL := by decide

theorem time_delimiter_pos_compact (y m d h mi : Nat) :
    time_delimiter_pos (compact_datetime y m d h mi) = some 8 := by
  simp [time_delimiter_pos, compact_datetime, pad2, pad4, strchr, digitChar_ne_space,
    digitChar_ne_T, digitChar_ne_nul, T_ne_space, T_ne_nul]

theorem strlen_compact (y m d h mi : Nat) : strlen (compact_datetime y m d h mi) = 13 := by
  simp [compact_datetime, pad2, pad4, strlen, digitChar_ne_nul, T_ne_nul]

theorem index_offset_8 : index_offset_of 8 = 0 := rfl
theorem index_offset_10 : index_offset_of 10 = 1 := rfl

theorem layout_test_compact (y m d h mi : Nat) :
    layout_test (compact_datetime y m d h mi) 8 = true := by
  simp [layout_test, strlen_compact]

theorem extract_year_compact (y m d h mi : Nat) (past : Nat → Char) (hy : y < 10000) :
    extract_year (compact_datetime y m d h mi) past = (y : Int) := by
  simp only [extract_year, memAt, compact_datetime, pad2, pad4, charAt]
  simp
  exact atoi_pad4 y hy

theorem extract_month_compact (y m d h mi : Nat) (past : Nat → Char) (hm : m < 100) :
    extract_month (compact_datetime y m d h mi) past 0 = (m : Int) := by
  simp only [extract_month, memAt, compact_datetime, pad2, pad4, charAt]
  simp
  exact atoi_pad2 m hm

theorem extract_day_compact (y m d h mi : Nat) (past : Nat → Char) (hd : d < 100) :
    extract_day (compact_datetime y m d h mi) past 0 = (d : Int) := by
  simp only [extract_day, memAt, compact_datetime, pad2, pad4, charAt]
  simp
  exact atoi_pad2 d hd

theorem extract_hour_compact (y m d h mi : Nat) (past : Nat → Char) (hh : h < 100) :
    extract_hour (compact_datetime y m d h mi) past 0 = (h : Int) := by
  simp only [extract_hour, memAt, compact_datetime, pad2, pad4, charAt]
  simp
  exact atoi_pad2 h hh

theorem extract_minute_compact (y m d h mi : Nat) (past : Nat → Char) (hmi : mi < 100) :
    extract_minute (compact_datetime y m d h mi) past 0 = (mi : Int) := by
  simp only [extract_minute, memAt, compact_datetime, pad2, pad4, charAt]
  simp [digitChar_ne_colon]
  exact atoi_pad2 mi hmi

/-- C4: on the compact string `YYYYMMDDTHHMM` of an in-range date and time the parser
returns 1 and stores year-1900, month-1, day, hour, minute and second 0 (with the zone
fields of the current time); rendering the stored fields as `YYYY-MM-DDTHH:MM:00` gives
back the year, month, day, hour and minute of the input. -/
theorem parse_compact_roundtrip (year month day hour minute : Nat) (past : Nat → Char)
    (current_time ts : Tm)
    (hy : 1900 ≤ year ∧ year ≤ 2038) (hm : 1 ≤ month ∧ month ≤ 12)
    (hd : 1 ≤ day ∧ day ≤ 31) (hh : hour ≤ 23) (hmi : minute ≤ 59) :
    try_to_parse_string_by_iso8601 (compact_datetime year month day hour minute) past
        current_time ts =
      (some 1,
        { ts with
          tm_gmtoff := current_time.tm_gmtoff
          tm_zone := current_time.tm_zone
          tm_isdst := current_time.tm_isdst
          tm_year := (year : Int) - 1900
          tm_mon := (month : Int) - 1
          tm_mday := (day : Int)
          tm_hour := (hour : Int)
          tm_min := (minute : Int)
          tm_sec := 0 }) ∧
      strftime_iso8601
          (try_to_parse_string_by_iso8601 (compact_datetime year month day hour minute) past
            current_time ts).2 =
        civil_output year month day hour minute := by
  have hres : try_to_parse_string_by_iso8601 (compact_datetime year month day hour minute)
      past current_time ts =
      (some 1,
        { ts with
          tm_gmtoff := current_time.tm_gmtoff
          tm_zone := current_time.tm_zone
          tm_isdst := current_time.tm_isdst
          tm_year := (year : Int) - 1900
          tm_mon := (month : Int) - 1
          tm_mday := (day : Int)
          tm_hour := (hour : Int)
          tm_min := (minute : Int)
          tm_sec := 0 }) := by
    have hrange : fields_in_range (year : Int) (month : Int) (day : Int) (hour : Int) = true := by
      simp only [fields_in_range, decide_eq_true_eq]; omega
    simp only [try_to_parse_string_by_iso8601, time_delimiter_pos_compact,
      layout_test_compact, index_offset_8, extract_year_compact _ _ _ _ _ _ (show year < 10000 by omega),
      extract_month_compact _ _ _ _ _ _ (show month < 100 by omega),
      extract_day_compact _ _ _ _ _ _ (show day < 100 by omega),
      extract_hour_compact _ _ _ _ _ _ (show hour < 100 by omega),
      extract_minute_compact _ _ _ _ _ _ (show minute < 100 by omega), hrange,
      if_true]
  refine ⟨hres, ?_⟩
  rw [hres]
  simp only [strftime_iso8601, civil_output]
  have e1 : ((year : Int) - 1900 + 1900).toNat = year := by omega
  have e2 : ((month : Int) - 1 + 1).toNat = month := by omega
  rw [e1, e2]
  simp

theorem memAt_cons_zero (c : Char) (s : List Char) (past : Nat → Char) :
    memAt (c :: s) past 0 = c := by
  simp [memAt, charAt]

theorem memAt_cons_succ (c : Char) (s : List Char) (past : Nat → Char) (i : Nat) :
    memAt (c :: s) past (i + 1) = memAt s past i := by
  simp only [memAt, charAt, List.length_cons, Nat.add_le_add_iff_right, List.getD_cons_succ]
  have : i + 1 - (s.length + 1) - 1 = i - s.length - 1 := by omega
  rw [this]

theorem strchr_space_separated (y m d h mi : Nat) (rest : List Char) :
    strchr (separated_datetime y m d h mi ++ rest) ' ' = some 10 := by
  simp [separated_datetime, pad2, pad4, strchr, digitChar_ne_space, digitChar_ne_nul,
    minus_ne_space, minus_ne_nul]

theorem strlen_separated (y m d h mi : Nat) (rest : List Char) :
    strlen (separated_datetime y m d h mi ++ rest) = strlen rest + 16 := by
  simp [separated_datetime, pad2, pad4, strlen, digitChar_ne_nul, minus_ne_nul, space_ne_nul,
    colon_ne_nul]

theorem layout_test_separated (y m d h mi : Nat) (rest : List Char) :
    layout_test (separated_datetime y m d h mi ++ rest) 10 = true := by
  simp [layout_test, strlen_separated]
  omega

theorem extract_year_separated (y m d h mi : Nat) (rest : List Char) (past : Nat → Char)
    (hy : y < 10000) :
    extract_year (separated_datetime y m d h mi ++ rest) past = (y : Int) := by
  simp only [extract_year, separated_datetime, pad2, pad4, List.cons_append, List.nil_append,
    List.append_assoc, memAt_cons_zero, memAt_cons_succ]
  exact atoi_pad4 y hy

theorem extract_month_separated (y m d h mi : Nat) (rest : List Char) (past : Nat → Char)
    (hm : m < 100) :
    extract_month (separated_datetime y m d h mi ++ rest) past 1 = (m : Int) := by
  simp only [extract_month, separated_datetime, pad2, pad4, List.cons_append, List.nil_append,
    List.append_assoc, memAt_cons_zero, memAt_cons_succ, Nat.reduceAdd, Nat.reduceMul]
  exact atoi_pad2 m hm

theorem extract_day_separated (y m d h mi : Nat) (rest : List Char) (past : Nat → Char)
    (hd : d < 100) :
    extract_day (separated_datetime y m d h mi ++ rest) past 1 = (d : Int) := by
  simp only [extract_day, separated_datetime, pad2, pad4, List.cons_append, List.nil_append,
    List.append_assoc, memAt_cons_zero, memAt_cons_succ, Nat.reduceAdd, Nat.reduceMul]
  exact atoi_pad2 d hd

theorem extract_hour_separated (y m d h mi : Nat) (rest : List Char) (past : Nat → Char)
    (hh : h < 100) :
    extract_hour (separated_datetime y m d h mi ++ rest) past 1 = (h : Int) := by
  simp only [extract_hour, separated_datetime, pad2, pad4, List.cons_append, List.nil_append,
    List.append_assoc, memAt_cons_zero, memAt_cons_succ, Nat.reduceAdd, Nat.reduceMul]
  exact atoi_pad2 h hh

theorem extract_minute_separated (y m d h mi : Nat) (rest : List Char) (past : Nat → Char)
    (hmi : mi < 100) :
    extract_minute (separated_datetime y m d h mi ++ rest) past 1 = (mi : Int) := by
  simp only [extract_minute, separated_datetime, pad2, pad4, List.cons_append, List.nil_append,
    List.append_assoc, memAt_cons_zero, memAt_cons_succ, Nat.reduceAdd, Nat.reduceMul, if_true]
  exact atoi_pad2 mi hmi

/-- What the parser returns on `YYYY-MM-DD HH:MM` followed by any further text. -/
theorem parse_separated_append (year month day hour minute : Nat) (rest : List Char)
    (past : Nat → Char) (current_time ts : Tm)
    (hy : 1900 ≤ year ∧ year ≤ 2038) (hm : 1 ≤ month ∧ month ≤ 12)
    (hd : 1 ≤ day ∧ day ≤ 31) (hh : hour ≤ 23) (hmi : minute ≤ 59) :
    try_to_parse_string_by_iso8601 (separated_datetime year month day hour minute ++ rest)
        past current_time ts =
      (some 1,
        { ts with
          tm_gmtoff := current_time.tm_gmtoff
          tm_zone := current_time.tm_zone
          tm_isdst := current_time.tm_isdst
          tm_year := (year : Int) - 1900
          tm_mon := (month : Int) - 1
          tm_mday := (day : Int)
          tm_hour := (hour : Int)
          tm_min := (minute : Int)
          tm_sec := 0 }) := by
  have hrange : fields_in_range (year : Int) (month : Int) (day : Int) (hour : Int) = true := by
    simp only [fields_in_range, decide_eq_true_eq]; omega
  simp only [try_to_parse_string_by_iso8601, time_delimiter_pos, strchr_space_separated,
    layout_test_separated, index_offset_10,
    extract_year_separated _ _ _ _ _ _ _ (show year < 10000 by omega),
    extract_month_separated _ _ _ _ _ _ _ (show month < 100 by omega),
    extract_day_separated _ _ _ _ _ _ _ (show day < 100 by omega),
    extract_hour_separated _ _ _ _ _ _ _ (show hour < 100 by omega),
    extract_minute_separated _ _ _ _ _ _ _ (show minute < 100 by omega), hrange, if_true]

theorem parse_compact_roundtrip_witness :
    try_to_parse_string_by_iso8601 "20190208T1211".toList sample_past sample_tm sample_tm =
        (some 1, { sample_tm with tm_year := 119, tm_mon := 1, tm_mday := 8, tm_hour := 12,
                                  tm_min := 11, tm_sec := 0 }) ∧
      strftime_iso8601
          (try_to_parse_string_by_iso8601 "20190208T1211".toList sample_past sample_tm
            sample_tm).2 = "2019-02-08T12:11:00".toList :=
  parse_compact_roundtrip 2019 2 8 12 11 sample_past sample_tm sample_tm
    (by decide) (by decide) (by decide) (by decide) (by decide)

/-- C5: on `YYYY-MM-DD HH:MM:SS` with an in-range date and hour, a minute in 0..59 and
any two digits of seconds, the parser returns 1 with `tm_min` the input minute and
`tm_sec = 0`, and its whole result equals the result on the same string without the
`:SS` suffix. -/
theorem parse_separated_seconds_discarded (year month day hour minute second : Nat)
    (past : Nat → Char) (current_time ts : Tm)
    (hy : 1900 ≤ year ∧ year ≤ 2038) (hm : 1 ≤ month ∧ month ≤ 12)
    (hd : 1 ≤ day ∧ day ≤ 31) (hh : hour ≤ 23) (hmi : minute ≤ 59) :
    (try_to_parse_string_by_iso8601
        (separated_datetime_seconds year month day hour minute second) past current_time
        ts).1 = some 1 ∧
      (try_to_parse_string_by_iso8601
        (separated_datetime_seconds year month day hour minute second) past current_time
        ts).2.tm_min = (minute : Int) ∧
      (try_to_parse_string_by_iso8601
        (separated_datetime_seconds year month day hour minute second) past current_time
        ts).2.tm_sec = 0 ∧
      try_to_parse_string_by_iso8601
          (separated_datetime_seconds year month day hour minute second) past current_time ts =
        try_to_parse_string_by_iso8601 (separated_datetime year month day hour minute) past
          current_time ts := by
  have h1 := parse_separated_append year month day hour minute (':' :: pad2 second) past
    current_time ts hy hm hd hh hmi
  have h2 := parse_separated_append year month day hour minute [] past current_time ts
    hy hm hd hh hmi
  rw [List.append_nil] at h2
  unfold separated_datetime_seconds
  rw [h1, h2]
  exact ⟨rfl, rfl, rfl, rfl⟩

theorem parse_separated_seconds_discarded_witness :
    (try_to_parse_string_by_iso8601 "2019-02-08 12:11:37".toList sample_past sample_tm
        sample_tm).1 = some 1 ∧
      (try_to_parse_string_by_iso8601 "2019-02-08 12:11:37".toList sample_past sample_tm
        sample_tm).2.tm_min = 11 ∧
      (try_to_parse_string_by_iso8601 "2019-02-08 12:11:37".toList sample_past sample_tm
        sample_tm).2.tm_sec = 0 ∧
      try_to_parse_string_by_iso8601 "2019-02-08 12:11:37".toList sample_past sample_tm
          sample_tm =
        try_to_parse_string_by_iso8601 "2019-02-08 12:11".toList sample_past sample_tm
          sample_tm :=
  parse_separated_seconds_discarded 2019 2 8 12 11 37 sample_past sample_tm sample_tm
    (by decide) (by decide) (by decide) (by decide) (by decide)

/-- C6: on a string that passes the layout test (delimiter offset 8 or 10 and the length
test of line 93) the parser returns 0 exactly when the extracted year, month, day or
hour is out of range and 1 exactly when all four are in range; the extracted minute
plays no part, and on return 1 it is stored in `tm_min` as it is. -/
theorem parse_range_check (string : List Char) (past : Nat → Char) (current_time ts : Tm)
    (time_delimiter_index : Nat)
    (hdelim : time_delimiter_pos string = some time_delimiter_index)
    (hlayout : layout_test string time_delimiter_index = true) :
    ((try_to_parse_string_by_iso8601 string past current_time ts).1 = some 0 ↔
        (extract_year string past < 1900 ∨ extract_year string past > 2038 ∨
          extract_month string past (index_offset_of time_delimiter_index) < 1 ∨
          extract_month string past (index_offset_of time_delimiter_index) > 12 ∨
          extract_day string past (index_offset_of time_delimiter_index) < 1 ∨
          extract_day string past (index_offset_of time_delimiter_index) > 31 ∨
          extract_hour string past (index_offset_of time_delimiter_index) < 0 ∨
          extract_hour string past (index_offset_of time_delimiter_index) > 23)) ∧
      ((try_to_parse_string_by_iso8601 string past current_time ts).1 = some 1 ↔
        ¬(extract_year string past < 1900 ∨ extract_year string past > 2038 ∨
          extract_month string past (index_offset_of time_delimiter_index) < 1 ∨
          extract_month string past (index_offset_of time_delimiter_index) > 12 ∨
          extract_day string past (index_offset_of time_delimiter_index) < 1 ∨
          extract_day string past (index_offset_of time_delimiter_index) > 31 ∨
          extract_hour string past (index_offset_of time_delimiter_index) < 0 ∨
          extract_hour string past (index_offset_of time_delimiter_index) > 23)) ∧
      ((try_to_parse_string_by_iso8601 string past current_time ts).1 = some 1 →
        (try_to_parse_string_by_iso8601 string past current_time ts).2.tm_min =
          extract_minute string past (index_offset_of time_delimiter_index)) := by
  simp only [try_to_parse_string_by_iso8601, hdelim, hlayout, if_true]
  by_cases hr : fields_in_range (extract_year string past)
      (extract_month string past (index_offset_of time_delimiter_index))
      (extract_day string past (index_offset_of time_delimiter_index))
      (extract_hour string past (index_offset_of time_delimiter_index)) = true
  · rw [if_pos hr]
    simp only [fields_in_range, decide_eq_true_eq] at hr
    refine ⟨?_, ?_, ?_⟩
    · constructor
      · intro h; simp at h
      · intro h; omega
    · constructor
      · intro _; omega
      · intro _; rfl
    · intro _; rfl
  · rw [if_neg hr]
    simp only [fields_in_range, decide_eq_true_eq] at hr
    refine ⟨?_, ?_, ?_⟩
    · constructor
      · intro _; omega
      · intro _; rfl
    · constructor
      · intro h; simp at h
      · intro h; omega
    · intro h; simp at h

theorem parse_range_check_witness :
    (try_to_parse_string_by_iso8601 "9999-99-99T99:99".toList sample_past sample_tm
        sample_tm).1 = some 0 ∧
      (try_to_parse_string_by_iso8601 "99990208T1211".toList sample_past sample_tm
        sample_tm).1 = some 0 ∧
      (try_to_parse_string_by_iso8601 "2019-02-08T12:11".toList sample_past sample_tm
        sample_tm).1 = some 1 ∧
      (try_to_parse_string_by_iso8601 "2019-02-08T12:99".toList sample_past sample_tm
        sample_tm).1 = some 1 ∧
      (try_to_parse_string_by_iso8601 "2019-02-08T12:99".toList sample_past sample_tm
        sample_tm).2.tm_min = 99 :=
  ⟨(parse_range_check "9999-99-99T99:99".toList sample_past sample_tm sample_tm 10
      (by decide) (by decide)).1.mpr (by decide),
   (parse_range_check "99990208T1211".toList sample_past sample_tm sample_tm 8
      (by decide) (by decide)).1.mpr (by decide),
   (parse_range_check "2019-02-08T12:11".toList sample_past sample_tm sample_tm 10
      (by decide) (by decide)).2.1.mpr (by decide),
   (parse_range_check "2019-02-08T12:99".toList sample_past sample_tm sample_tm 10
      (by decide) (by decide)).2.1.mpr (by decide),
   ((parse_range_check "2019-02-08T12:99".toList sample_past sample_tm sample_tm 10
      (by decide) (by decide)).2.2 (by decide)).trans (by decide)⟩

/-! ## Strings that are no date-time -/

theorem strchr_eq_none_of_not_mem (s : List Char) (c : Char) (h : c ∉ s) :
    strchr s c = none := by
  induction s with
  | nil => rfl
  | cons x xs ih =>
    have hx : x ≠ c := fun e => h (by simp [e])
    have hxs : c ∉ xs := fun e => h (List.mem_cons_of_mem _ e)
    simp [strchr, hx, ih hxs]

/-- C7: on a reference string with neither a space nor a `T` the parser returns -1 and
leaves the output structure as it was, and `main` then takes `cur` from
`(time_t) atof(argv[2])` and keeps `use_iso8601_datetime_format = 0` (numeric output). -/
theorem parse_no_delimiter (string : List Char) (past : Nat → Char) (current_time ts : Tm)
    (host : Host) (cur : Int)
    (hspace : ' ' ∉ string) (hT : 'T' ∉ string) :
    try_to_parse_string_by_iso8601 string past current_time ts = (some (-1), ts) ∧
      main_reference host past (some string) ts cur =
        some { cur := host.atof_time_t string, use_iso8601_datetime_format := 0, ts := ts } := by
  have hp : ∀ ct, try_to_parse_string_by_iso8601 string past ct ts = (some (-1), ts) := by
    intro ct
    simp only [try_to_parse_string_by_iso8601, time_delimiter_pos,
      strchr_eq_none_of_not_mem _ _ hspace, strchr_eq_none_of_not_mem _ _ hT]
  refine ⟨hp _, ?_⟩
  simp only [main_reference, hp, if_true]

theorem parse_no_delimiter_witness :
    try_to_parse_string_by_iso8601 "1569016800".toList sample_past sample_tm sample_tm =
        (some (-1), sample_tm) ∧
      main_reference sample_host sample_past (some "1569016800".toList) sample_tm 0 =
        some { cur := 1569016800, use_iso8601_datetime_format := 0, ts := sample_tm } :=
  parse_no_delimiter "1569016800".toList sample_past sample_tm sample_tm sample_host 0
    (by decide) (by decide)

/-! ## Evaluations -/

/-- C2: the line `"0 22 * * "` has four words, yet the splitter does not exit with code
1: the fifth walk step returns the offset of the terminator behind the trailing space,
and the whole of `"0 " ++ line` is handed on as the schedule. -/
theorem main_split_four_words_trailing_space :
    wordCount "0 22 * * ".toList = 4 ∧
      main_split "0 22 * * ".toList =
        .ok { schedule := "0 0 22 * * ".toList, disposition := none } := by
  constructor <;> rfl

/-- C3: the line `"0 22 * * fri "` has five words and no sixth, yet the sixth walk step
returns the offset of the terminator instead of -1: an empty disposition is reported and
the schedule is cut before the trailing space. -/
theorem main_split_five_words_trailing_space :
    wordCount "0 22 * * fri ".toList = 5 ∧
      main_split "0 22 * * fri ".toList =
        .ok { schedule := "0 0 22 * * fri".toList, disposition := some [] } := by
  constructor <;> rfl

/-- C8: on `"2019T1211"` (delimiter at offset 4) and on `"hello world"` (delimiter at
offset 5) the layout test fails and control leaves the parser without a `return`
statement: no value is returned, -1 or other, and the `switch` of `main` has no defined
value to decide on. -/
theorem parse_other_delimiter_offset (past : Nat → Char) (current_time ts : Tm)
    (host : Host) (cur : Int) :
    time_delimiter_pos "2019T1211".toList = some 4 ∧
      (try_to_parse_string_by_iso8601 "2019T1211".toList past current_time ts).1 = none ∧
      main_reference host past (some "2019T1211".toList) ts cur = none ∧
      time_delimiter_pos "hello world".toList = some 5 ∧
      (try_to_parse_string_by_iso8601 "hello world".toList past current_time ts).1 = none ∧
      main_reference host past (some "hello world".toList) ts cur = none :=
  ⟨rfl, rfl, rfl, rfl, rfl, rfl⟩

/-- C9: `"20190208T121"` has three characters after the `T`, yet it passes the test of
line 93 (length 12 minus offset 8 is 4) and the parser returns 1 with minute 1; on
`"20190208T"` the test fails and control leaves the parser without a `return`
statement, so that no value is returned. -/
theorem parse_short_time_of_day (past : Nat → Char) (current_time ts : Tm) :
    try_to_parse_string_by_iso8601 "20190208T121".toList past current_time ts =
        (some 1,
          { ts with
            tm_gmtoff := current_time.tm_gmtoff
            tm_zone := current_time.tm_zone
            tm_isdst := current_time.tm_isdst
            tm_year := 119
            tm_mon := 1
            tm_mday := 8
            tm_hour := 12
            tm_min := 1
            tm_sec := 0 }) ∧
      (try_to_parse_string_by_iso8601 "20190208T".toList past current_time ts).1 = none := by
  have hdelim : time_delimiter_pos "20190208T121".toList = some 8 := by decide
  have hlayout : layout_test "20190208T121".toList 8 = true := by decide
  have hyear : extract_year "20190208T121".toList past = 2019 := by rfl
  have hmonth : extract_month "20190208T121".toList past 0 = 2 := by rfl
  have hday : extract_day "20190208T121".toList past 0 = 8 := by rfl
  have hhour : extract_hour "20190208T121".toList past 0 = 12 := by rfl
  have hminute : extract_minute "20190208T121".toList past 0 = 1 := by rfl
  have hrange : fields_in_range 2019 2 8 12 = true := by decide
  constructor
  · simp only [try_to_parse_string_by_iso8601, hdelim, hlayout, index_offset_8, hyear, hmonth,
      hday, hhour, hminute, hrange, if_true]
    norm_num
  · rfl

/-- C10: in `"fri "` a word starts at offset 0 and no further word follows it, yet the
function returns 4, the offset of the terminator behind the trailing space, not -1.
For a NULL pointer and for the empty string it does return -1. -/
theorem beginning_of_next_word_trailing_space :
    position_of_beginning_of_next_word_boundary (some "fri ".toList) 0 = 4 ∧
      wordCount ("fri ".toList.drop 3) = 0 ∧
      position_of_beginning_of_next_word_boundary none 0 = -1 ∧
      position_of_beginning_of_next_word_boundary (some []) 0 = -1 := by
  refine ⟨?_, ?_, ?_, ?_⟩ <;> rfl

/-! ## The word-boundary functions, exactly -/

theorem charAt_add (s : List Char) (pos j : Nat) :
    charAt s (pos + j) = ((s.drop pos).drop j).headD NUL := by
  rw [charAt_eq_headD, List.drop_drop]

theorem takeWhile_nonSp_before (l : List Char) :
    ∀ j, j < (l.takeWhile nonSp).length → (l.drop j).headD NUL ≠ ' ' := by
  induction l with
  | nil => intro j h; simp at h
  | cons c t ih =>
    intro j h
    by_cases hc : c = ' '
    · simp [List.takeWhile_cons, nonSp, hc] at h
    · have hl : ((c :: t).takeWhile nonSp).length = (t.takeWhile nonSp).length + 1 := by
        simp [List.takeWhile_cons, nonSp, hc]
      cases j with
      | zero => simpa using hc
      | succ k =>
        rw [List.drop_succ_cons]
        exact ih k (by omega)

theorem takeWhile_isSp_before (l : List Char) :
    ∀ j, j < (l.takeWhile isSp).length → (l.drop j).headD NUL = ' ' := by
  induction l with
  | nil => intro j h; simp at h
  | cons c t ih =>
    intro j h
    by_cases hc : c = ' '
    · have hl : ((c :: t).takeWhile isSp).length = (t.takeWhile isSp).length + 1 := by
        simp [List.takeWhile_cons, isSp, hc]
      cases j with
      | zero => simpa using hc
      | succ k =>
        rw [List.drop_succ_cons]
        exact ih k (by omega)
    · simp [List.takeWhile_cons, isSp, hc] at h

theorem length_takeWhile_le_length (p : Char → Bool) (l : List Char) :
    (l.takeWhile p).length ≤ l.length :=
  (List.takeWhile_prefix p).length_le

theorem charAt_eq_space_of_drop {s : List Char} {i : Nat} {t : List Char}
    (h : s.drop i = ' ' :: t) : charAt s i = ' ' := by
  rw [charAt_eq_headD, h]; rfl

theorem charAt_ne_space_of_ge (s : List Char) (i : Nat) (h : s.length ≤ i) :
    charAt s i ≠ ' ' := by
  rw [charAt_eq_headD, List.drop_eq_nil_of_le h]
  decide

/-- C11: on a string without NUL and an offset inside it,
`position_of_end_of_next_word_boundary` returns an offset `r` with `pos ≤ r ≤ length`,
no space in `[pos, r)`, and either a space at `r` or `r = length`: the smallest offset
at or after `pos` that holds a space, or the length when there is none. -/
theorem end_of_next_word_exact (s : List Char) (hs : NUL ∉ s) (pos : Nat)
    (hpos : pos ≤ s.length) :
    ∃ r : Nat, position_of_end_of_next_word_boundary (some s) pos = (r : Int) ∧
      pos ≤ r ∧ r ≤ s.length ∧
      (∀ i, pos ≤ i → i < r → charAt s i ≠ ' ' ∧ charAt s i ≠ NUL) ∧
      (charAt s r = ' ' ∨ (r = s.length ∧ ∀ i, pos ≤ i → charAt s i ≠ ' ')) := by
  refine ⟨pos + ((s.drop pos).takeWhile nonSp).length, end_eq s hs pos, by omega, ?_, ?_, ?_⟩
  · have := length_takeWhile_le_length nonSp (s.drop pos)
    rw [List.length_drop] at this
    omega
  · intro i h1 h2
    obtain ⟨j, rfl⟩ : ∃ j, i = pos + j := ⟨i - pos, by omega⟩
    have hj : j < ((s.drop pos).takeWhile nonSp).length := by omega
    refine ⟨?_, ?_⟩
    · rw [charAt_add]
      exact takeWhile_nonSp_before _ j hj
    · have hlen := length_takeWhile_le_length nonSp (s.drop pos)
      rw [List.length_drop] at hlen
      have hlt : pos + j < s.length := by omega
      intro hn
      apply hs
      rw [← hn, charAt, List.getD_eq_getElem?_getD, List.getElem?_eq_getElem hlt]
      exact List.getElem_mem _
  · have hd := drop_add_takeWhile nonSp s pos
    rcases dropWhile_nonSp_cases (s.drop pos) with h | ⟨t, h⟩
    · right
      rw [h] at hd
      have hlen : s.length ≤ pos + ((s.drop pos).takeWhile nonSp).length :=
        List.drop_eq_nil_iff.mp hd
      have hle := length_takeWhile_le_length nonSp (s.drop pos)
      rw [List.length_drop] at hle
      refine ⟨by omega, ?_⟩
      intro i hi
      by_cases hlt : i < pos + ((s.drop pos).takeWhile nonSp).length
      · obtain ⟨j, rfl⟩ : ∃ j, i = pos + j := ⟨i - pos, by omega⟩
        rw [charAt_add]
        exact takeWhile_nonSp_before _ j (by omega)
      · exact charAt_ne_space_of_ge s i (by omega)
    · left
      rw [h] at hd
      exact charAt_eq_space_of_drop hd

theorem end_of_next_word_exact_witness :
    ∃ r : Nat, position_of_end_of_next_word_boundary (some "0 22 * *".toList) 2 = (r : Int) ∧
      2 ≤ r ∧ r ≤ "0 22 * *".toList.length ∧
      (∀ i, 2 ≤ i → i < r → charAt "0 22 * *".toList i ≠ ' ' ∧
        charAt "0 22 * *".toList i ≠ NUL) ∧
      (charAt "0 22 * *".toList r = ' ' ∨
        (r = "0 22 * *".toList.length ∧ ∀ i, 2 ≤ i → charAt "0 22 * *".toList i ≠ ' ')) :=
  end_of_next_word_exact "0 22 * *".toList (by decide) 2 (by decide)

theorem headD_ne_space_of_startsWord {l : List Char} (h : startsWord l) :
    l.headD NUL ≠ ' ' := by
  cases l with
  | nil => decide
  | cons c t => simpa [startsWord] using h

/-- The two outcomes of one call of the word walk on a string without NUL: either no
space lies at or after `pos` and -1 is returned, or a run of non-spaces `[pos, p)` is
followed by a maximal run of spaces `[p, r)` and `r` is returned. -/
theorem begin_cases (s : List Char) (hs : NUL ∉ s) (pos : Nat) :
    (position_of_beginning_of_next_word_boundary (some s) pos = -1 ∧
        ∀ i, pos ≤ i → charAt s i ≠ ' ') ∨
      ∃ p r : Nat, position_of_beginning_of_next_word_boundary (some s) pos = (r : Int) ∧
        pos ≤ p ∧ p < r ∧ r ≤ s.length ∧
        (∀ i, pos ≤ i → i < p → charAt s i ≠ ' ') ∧
        (∀ i, p ≤ i → i < r → charAt s i = ' ') ∧ charAt s r ≠ ' ' := by
  have hbe := begin_eq s hs pos
  have hd := drop_add_takeWhile nonSp s pos
  have hle := length_takeWhile_le_length nonSp (s.drop pos)
  rw [List.length_drop] at hle
  rcases dropWhile_nonSp_cases (s.drop pos) with h | ⟨t, h⟩
  · left
    rw [if_pos h] at hbe
    refine ⟨hbe, ?_⟩
    rw [h] at hd
    have hlen : s.length ≤ pos + ((s.drop pos).takeWhile nonSp).length :=
      List.drop_eq_nil_iff.mp hd
    intro i hi
    by_cases hlt : i < pos + ((s.drop pos).takeWhile nonSp).length
    · obtain ⟨j, rfl⟩ : ∃ j, i = pos + j := ⟨i - pos, by omega⟩
      rw [charAt_add]
      exact takeWhile_nonSp_before _ j (by omega)
    · exact charAt_ne_space_of_ge s i (by omega)
  · right
    have hne : (s.drop pos).dropWhile nonSp ≠ [] := by rw [h]; simp
    rw [if_neg hne] at hbe
    have hb1 : 1 ≤ (((s.drop pos).dropWhile nonSp).takeWhile isSp).length := by
      rw [h]; simp [List.takeWhile_cons, isSp]
    have hble := length_takeWhile_le_length isSp ((s.drop pos).dropWhile nonSp)
    rw [← hd, List.length_drop] at hble
    rw [← hd] at hb1
    have hd2 := drop_add_takeWhile isSp s (pos + ((s.drop pos).takeWhile nonSp).length)
    rw [hd] at hble hb1 hd2
    refine ⟨pos + ((s.drop pos).takeWhile nonSp).length, _, hbe, by omega, by omega, by omega,
      ?_, ?_, ?_⟩
    · intro i h1 h2
      obtain ⟨j, rfl⟩ : ∃ j, i = pos + j := ⟨i - pos, by omega⟩
      rw [charAt_add]
      exact takeWhile_nonSp_before _ j (by omega)
    · intro i h1 h2
      obtain ⟨j, rfl⟩ :
          ∃ j, i = pos + ((s.drop pos).takeWhile nonSp).length + j :=
        ⟨i - (pos + ((s.drop pos).takeWhile nonSp).length), by omega⟩
      rw [charAt_add, hd]
      exact takeWhile_isSp_before _ j (by omega)
    · rw [charAt_eq_headD, hd2]
      exact headD_ne_space_of_startsWord (startsWord_dropWhile_isSp _)

/-- C20: on a string without NUL and an offset inside it,
`position_of_beginning_of_next_word_boundary` returns -1 exactly when no space lies at
or after `pos`; otherwise it returns the offset `r` just past the first maximal run of
spaces `[p, r)` at or after `pos`, with `pos < r ≤ length`, a space at `r - 1` and no
space at `r` (the terminator counts as no space), so both loops stop by their own
condition.  A successful step of the walk of `main` therefore moves
`word_boundary_pos` strictly forward and not past the length. -/
theorem beginning_of_next_word_exact (s : List Char) (hs : NUL ∉ s) (pos : Nat)
    (_hpos : pos ≤ s.length) :
    (position_of_beginning_of_next_word_boundary (some s) pos = -1 ↔
        ∀ i, pos ≤ i → charAt s i ≠ ' ') ∧
      ((∃ i, pos ≤ i ∧ charAt s i = ' ') →
        ∃ p r : Nat, position_of_beginning_of_next_word_boundary (some s) pos = (r : Int) ∧
          pos ≤ p ∧ p < r ∧ pos < r ∧ r ≤ s.length ∧
          (∀ i, pos ≤ i → i < p → charAt s i ≠ ' ') ∧
          (∀ i, p ≤ i → i < r → charAt s i = ' ') ∧
          charAt s (r - 1) = ' ' ∧ charAt s r ≠ ' ') ∧
      (∀ (i : Nat) (st st1 : WalkState), st.word_boundary_pos = (pos : Int) →
        walk_step s i st = .ok st1 → st1.beginning_of_next_word_boundary ≠ -1 →
        st.word_boundary_pos < st1.word_boundary_pos ∧
          st1.word_boundary_pos ≤ (s.length : Int)) := by
  rcases begin_cases s hs pos with ⟨h1, h2⟩ | ⟨p, r, h1, hp, hpr, hr, hns, hsp, hrn⟩
  · refine ⟨⟨fun _ => h2, fun _ => h1⟩, ?_, ?_⟩
    · rintro ⟨i, hi, hc⟩
      exact absurd hc (h2 i hi)
    · intro i st st1 hst hstep hb
      simp only [walk_step, hst, Int.toNat_ofNat, h1] at hstep
      by_cases hi : i < 5
      · simp [hi] at hstep
      · simp [hi] at hstep
        rw [← hstep] at hb
        exact absurd rfl hb
  · have hne : position_of_beginning_of_next_word_boundary (some s) pos ≠ -1 := by
      rw [h1]; omega
    refine ⟨⟨fun h => absurd h hne, fun h => absurd (hsp p (le_refl p) hpr) (h p hp)⟩, ?_, ?_⟩
    · intro _
      exact ⟨p, r, h1, hp, hpr, by omega, hr, hns, hsp, hsp (r - 1) (by omega) (by omega), hrn⟩
    · intro i st st1 hst hstep hb
      simp only [walk_step, hst, Int.toNat_ofNat, h1] at hstep
      rw [if_pos (by omega)] at hstep
      injection hstep with hstep
      rw [← hstep, hst]
      simp only
      omega

theorem beginning_of_next_word_exact_witness :
    (position_of_beginning_of_next_word_boundary (some "0 22  *".toList) 2 = -1 ↔
        ∀ i, 2 ≤ i → charAt "0 22  *".toList i ≠ ' ') ∧
      ((∃ i, 2 ≤ i ∧ charAt "0 22  *".toList i = ' ') →
        ∃ p r : Nat,
          position_of_beginning_of_next_word_boundary (some "0 22  *".toList) 2 = (r : Int) ∧
          2 ≤ p ∧ p < r ∧ 2 < r ∧ r ≤ "0 22  *".toList.length ∧
          (∀ i, 2 ≤ i → i < p → charAt "0 22  *".toList i ≠ ' ') ∧
          (∀ i, p ≤ i → i < r → charAt "0 22  *".toList i = ' ') ∧
          charAt "0 22  *".toList (r - 1) = ' ' ∧ charAt "0 22  *".toList r ≠ ' ') ∧
      (∀ (i : Nat) (st st1 : WalkState), st.word_boundary_pos = ((2 : Nat) : Int) →
        walk_step "0 22  *".toList i st = .ok st1 →
        st1.beginning_of_next_word_boundary ≠ -1 →
        st.word_boundary_pos < st1.word_boundary_pos ∧
          st1.word_boundary_pos ≤ ("0 22  *".toList.length : Int)) :=
  beginning_of_next_word_exact "0 22  *".toList (by decide) 2 (by decide)

/-! ## What the splitter cuts -/

/-- After a successful step of the walk a space lies behind the word that starts at
`last_word_boundary_pos`. -/
theorem walk_step_last (buf : List Char) (hb : NUL ∉ buf) (i : Nat) (st st1 : WalkState)
    (h : walk_step buf i st = .ok st1) (hne : st1.beginning_of_next_word_boundary ≠ -1) :
    (buf.drop st1.last_word_boundary_pos.toNat).dropWhile nonSp ≠ [] := by
  have hbe := begin_eq buf hb st.word_boundary_pos.toNat
  simp only [walk_step] at h
  by_cases hr : position_of_beginning_of_next_word_boundary (some buf)
      st.word_boundary_pos.toNat ≠ -1
  · rw [if_pos hr] at h
    injection h with h
    rw [← h]
    simp only
    intro hnil
    rw [if_pos hnil] at hbe
    exact hr hbe
  · rw [if_neg hr] at h
    by_cases hi : i < 5
    · rw [if_pos hi] at h
      cases h
    · rw [if_neg hi] at h
      injection h with h
      rw [← h] at hne
      simp only [ne_eq, not_not] at hr
      exact absurd hr hne

theorem walk_loop_last (buf : List Char) (hb : NUL ∉ buf) :
    ∀ (n i : Nat) (st st1 : WalkState), walk_loop buf (n + 1) i st = .ok st1 →
      st1.beginning_of_next_word_boundary ≠ -1 →
      (buf.drop st1.last_word_boundary_pos.toNat).dropWhile nonSp ≠ [] := by
  intro n
  induction n with
  | zero =>
    intro i st st1 h hne
    simp only [walk_loop] at h
    cases hs : walk_step buf i st with
    | error e => rw [hs] at h; cases h
    | ok st2 =>
      rw [hs] at h
      injection h with h
      rw [← h] at hne ⊢
      exact walk_step_last buf hb i st st2 hs hne
  | succ k ih =>
    intro i st st1 h hne
    rw [walk_loop] at h
    cases hs : walk_step buf i st with
    | error e => rw [hs] at h; cases h
    | ok st2 =>
      rw [hs] at h
      exact ih (i + 1) st2 st1 h hne

/-- What the splitter returns when the walk ends in `st`: nothing cut when the last
step returned -1, else a cut at the first space behind `last_word_boundary_pos`. -/
theorem cut_disposition_eq (buf : List Char) (hb : NUL ∉ buf) (st : WalkState) :
    (st.beginning_of_next_word_boundary = -1 ∧
        cut_disposition buf st = { schedule := buf, disposition := none }) ∨
      (st.beginning_of_next_word_boundary ≠ -1 ∧
        cut_disposition buf st =
          { schedule :=
              buf.take (st.last_word_boundary_pos.toNat +
                ((buf.drop st.last_word_boundary_pos.toNat).takeWhile nonSp).length),
            disposition :=
              some (buf.drop (st.last_word_boundary_pos.toNat +
                ((buf.drop st.last_word_boundary_pos.toNat).takeWhile nonSp).length + 1)) }) := by
  by_cases h : st.beginning_of_next_word_boundary = -1
  · left
    refine ⟨h, ?_⟩
    simp only [cut_disposition, h, ne_eq, not_true_eq_false, if_false, cstr_eq_self buf hb]
  · right
    refine ⟨h, ?_⟩
    simp only [cut_disposition, ne_eq, h, not_false_eq_true, if_true, end_eq buf hb,
      Int.toNat_ofNat, cstr_set_nul buf hb, cstr_eq_self _ (nul_not_mem_drop hb _)]

theorem strlen_eq_length (s : List Char) (h : NUL ∉ s) : strlen s = s.length := by
  induction s with
  | nil => rfl
  | cons c t ih =>
    have hc : c ≠ NUL := fun e => h (by simp [e])
    have ht : NUL ∉ t := fun e => h (List.mem_cons_of_mem _ e)
    simp [strlen, hc, ih ht]

/-- On a line that fits the schedule buffer (at most 997 characters) the splitter
hands on the cut of the state in which the walk ends; the disposition then fits its
buffer too. -/
theorem main_split_of_walk (line : List Char) (hnul : NUL ∉ line)
    (hfit : line.length ≤ 997) (st : WalkState)
    (hw : walk_loop ('0' :: ' ' :: line) 6 0 walk_init = .ok st) :
    main_split line = .ok (cut_disposition ('0' :: ' ' :: line) st) := by
  have hb : NUL ∉ ('0' :: ' ' :: line) := nul_not_mem_prefixed hnul
  unfold main_split
  rw [if_neg (by rw [strlen_eq_length line hnul, buffer_size]; omega), cstr_eq_self line hnul]
  simp only []
  rw [hw]
  simp only []
  rcases cut_disposition_eq _ hb st with ⟨_, hc⟩ | ⟨_, hc⟩
  · rw [hc]
  · rw [hc]
    simp only []
    rw [if_neg]
    rw [List.length_drop, buffer_size]
    simp only [List.length_cons]
    omega

/-- When the splitter hands a split on, the line fits the schedule buffer, the walk
ended without `exit(1)`, and the split is the cut of the state in which it ended. -/
theorem main_split_ok_inv (line : List Char) (hnul : NUL ∉ line) (r : Split)
    (h : main_split line = .ok r) :
    line.length ≤ 997 ∧
      ∃ st, walk_loop ('0' :: ' ' :: line) 6 0 walk_init = .ok st ∧
        r = cut_disposition ('0' :: ' ' :: line) st := by
  by_cases hfit : buffer_size < 2 + strlen line + 1
  · unfold main_split at h
    rw [if_pos hfit] at h
    cases h
  · have hlen : line.length ≤ 997 := by
      rw [strlen_eq_length line hnul, buffer_size] at hfit
      omega
    refine ⟨hlen, ?_⟩
    cases hw : walk_loop ('0' :: ' ' :: line) 6 0 walk_init with
    | error e =>
      unfold main_split at h
      rw [if_neg hfit, cstr_eq_self line hnul] at h
      simp only [] at h
      rw [hw] at h
      cases h
    | ok st =>
      have h2 := main_split_of_walk line hnul hlen st hw
      rw [h2] at h
      injection h with h
      exact ⟨st, rfl, h.symm⟩

/-- Whenever the splitter hands on a split with a disposition for a crontab line (a
string without NUL), the schedule, one space and the disposition spell `"0 " ++ line`
character for character, and the character of `"0 " ++ line` at the cut is a space. -/
theorem main_split_lossless (line schedule disposition : List Char) (hnul : NUL ∉ line)
    (h : main_split line = .ok { schedule := schedule, disposition := some disposition }) :
    schedule ++ ' ' :: disposition = '0' :: ' ' :: line ∧
      ('0' :: ' ' :: line).get? schedule.length = some ' ' := by
  have hb : NUL ∉ ('0' :: ' ' :: line) := nul_not_mem_prefixed hnul
  have key : schedule ++ ' ' :: disposition = '0' :: ' ' :: line := by
    obtain ⟨_, st, hw, hr⟩ := main_split_ok_inv line hnul _ h
    rcases cut_disposition_eq _ hb st with ⟨_, hc⟩ | ⟨hne, hc⟩
    · rw [hc] at hr
      simp at hr
    · rw [hc] at hr
      have hlast := walk_loop_last _ hb 5 0 walk_init st hw hne
      have hd := drop_add_takeWhile nonSp ('0' :: ' ' :: line)
        st.last_word_boundary_pos.toNat
      rcases dropWhile_nonSp_cases
          (('0' :: ' ' :: line).drop st.last_word_boundary_pos.toNat) with hn | ⟨t, hn⟩
      · exact absurd hn hlast
      · rw [hn] at hd
        have ht := drop_succ_of_drop_cons hd
        simp only [Split.mk.injEq, Option.some.injEq] at hr
        rw [hr.1, hr.2, ht, ← hd]
        exact List.take_append_drop _ _
  refine ⟨key, ?_⟩
  rw [← key, List.get?_eq_getElem?, List.getElem?_append_right (le_refl _)]
  simp

/-- The cut of the splitter on a line of at most 997 characters with at least six
words (shared by the statements on the disposition). -/
theorem main_split_cut (line : List Char) (hnul : NUL ∉ line) (hfit : line.length ≤ 997)
    (h6 : 6 ≤ wordCount line) :
    main_split line =
        .ok { schedule := '0' :: ' ' :: line.take (endOfWord 5 line),
              disposition := some (line.drop (endOfWord 5 line + 1)) } ∧
      line.drop (endOfWord 5 line) = ' ' :: line.drop (endOfWord 5 line + 1) := by
  have hb : NUL ∉ ('0' :: ' ' :: line) := nul_not_mem_prefixed hnul
  have hsw : startsWord (('0' :: ' ' :: line).drop 0) := by simp [startsWord]
  have hwc : 5 + 2 ≤ wordCount (('0' :: ' ' :: line).drop 0) := by
    have : wordCount ('0' :: ' ' :: line) = 1 + wordCount line := by
      simp [wordCount, wordCountAux]
    rw [List.drop_zero, this]; omega
  obtain ⟨q, r, hrun, hq, hqne, hr⟩ :=
    walk_loop_ok _ hb 5 0 0 walk_init rfl hsw hwc
  rw [List.drop_zero, endOfWord_prefixed 4 line, Nat.zero_add] at hq
  have hr1 : ((r : Int) ≠ -1) := by omega
  constructor
  · rw [main_split_of_walk line hnul hfit _ hrun]
    simp only [cut_disposition, if_pos hr1, Int.toNat_ofNat, end_eq _ hb, hq]
    rw [cstr_set_nul _ hb, cstr_eq_self _ (nul_not_mem_drop hb _)]
    have e1 : 2 + endOfWord 5 line + 1 = (endOfWord 5 line + 1) + 2 := by omega
    have e2 : 2 + endOfWord 5 line = endOfWord 5 line + 2 := by omega
    rw [e1, e2]
    simp only [List.take_succ_cons, List.drop_succ_cons]
  · have h1 := drop_add_takeWhile nonSp ('0' :: ' ' :: line) q
    rw [hq] at h1
    have e2 : 2 + endOfWord 5 line = endOfWord 5 line + 2 := by omega
    rw [e2] at h1
    simp only [List.drop_succ_cons] at h1
    rcases dropWhile_nonSp_cases (('0' :: ' ' :: line).drop q) with h | ⟨t, h⟩
    · exact absurd h hqne
    · rw [h] at h1
      rw [drop_succ_of_drop_cons h1, h1]

theorem wordCount_drop_first (l : List Char) :
    wordCount (l.drop ((l.takeWhile isSp).length +
      ((l.drop (l.takeWhile isSp).length).takeWhile nonSp).length)) = wordCount l - 1 := by
  rw [drop_add_takeWhile, drop_length_takeWhile]
  have hsw := startsWord_dropWhile_isSp l
  rw [wordCount, wordCount, wordCountAux_dropSpaces l]
  cases hm : l.dropWhile isSp with
  | nil => rfl
  | cons c t =>
    rw [hm] at hsw
    have hc : c ≠ ' ' := by simpa [startsWord] using hsw
    simp [wordCountAux, List.dropWhile_cons, nonSp, hc, wordCountAux_true]

theorem wordCount_drop_endOfWord (n : Nat) :
    ∀ l : List Char, wordCount (l.drop (endOfWord n l)) = wordCount l - n := by
  induction n with
  | zero => intro l; simp [endOfWord]
  | succ k ih =>
    intro l
    rw [endOfWord, ← List.drop_drop, ih, wordCount_drop_first]
    omega

theorem takeWhile_isSp_eq_replicate (l : List Char) :
    l.takeWhile isSp = List.replicate (l.takeWhile isSp).length ' ' := by
  induction l with
  | nil => rfl
  | cons c t ih =>
    by_cases hc : c = ' '
    · have : (c :: t).takeWhile isSp = ' ' :: t.takeWhile isSp := by
        simp [List.takeWhile_cons, isSp, hc]
      rw [this, List.length_cons, List.replicate_succ, ← ih]
    · simp [List.takeWhile_cons, isSp, hc]

/-- C17 (amended): for every crontab line (a string without NUL) of at most 997
characters, so that `"0 " ++ line` fits the 1000-byte buffer, with at least six
words the schedule is `"0 "` followed by the line up to the end of the fifth word, and
the disposition is the rest of the line after the first space behind the fifth word:
the suffix that begins at the first character of the sixth word, preceded by the `k`
further spaces that separate the two words (`k = 0` when one space separates them). -/
theorem main_split_disposition_from_fifth_word (line : List Char) (hnul : NUL ∉ line)
    (hfit : line.length ≤ 997) (h6 : 6 ≤ wordCount line) :
    ∃ k : Nat, startOfWord 6 line = endOfWord 5 line + 1 + k ∧
      main_split line =
        .ok { schedule := '0' :: ' ' :: line.take (endOfWord 5 line),
              disposition :=
                some (List.replicate k ' ' ++ line.drop (startOfWord 6 line)) } ∧
      startsWord (line.drop (startOfWord 6 line)) ∧ line.drop (startOfWord 6 line) ≠ [] := by
  obtain ⟨hms, hsp⟩ := main_split_cut line hnul hfit h6
  have hstart : startOfWord 6 line = endOfWord 5 line + 1 +
      ((line.drop (endOfWord 5 line + 1)).takeWhile isSp).length := by
    simp only [startOfWord, Nat.add_one_sub_one, hsp]
    simp [List.takeWhile_cons, isSp]
    omega
  have hdrop : line.drop (startOfWord 6 line) =
      (line.drop (endOfWord 5 line + 1)).dropWhile isSp := by
    rw [hstart, drop_add_takeWhile]
  refine ⟨_, hstart, ?_, ?_, ?_⟩
  · rw [hms, hdrop, ← takeWhile_isSp_eq_replicate, List.takeWhile_append_dropWhile]
  · rw [hdrop]; exact startsWord_dropWhile_isSp _
  · have hc := wordCount_drop_endOfWord 5 line
    rw [hsp] at hc
    have hc2 : wordCount (' ' :: line.drop (endOfWord 5 line + 1)) =
        wordCount ((line.drop (endOfWord 5 line + 1)).dropWhile isSp) := by
      rw [wordCount, wordCount, wordCountAux_dropSpaces]
      simp [List.dropWhile_cons, isSp]
    rw [hc2, ← hdrop] at hc
    intro hnil
    rw [hnil] at hc
    have h0 : wordCount ([] : List Char) = 0 := rfl
    rw [h0] at hc
    omega

theorem main_split_disposition_from_fifth_word_witness :
    ∃ k : Nat, startOfWord 6 "0 22 * * fri  disable_wifi.sh".toList =
        endOfWord 5 "0 22 * * fri  disable_wifi.sh".toList + 1 + k ∧
      main_split "0 22 * * fri  disable_wifi.sh".toList =
        .ok { schedule :=
                '0' :: ' ' :: "0 22 * * fri  disable_wifi.sh".toList.take
                  (endOfWord 5 "0 22 * * fri  disable_wifi.sh".toList),
              disposition :=
                some (List.replicate k ' ' ++ "0 22 * * fri  disable_wifi.sh".toList.drop
                  (startOfWord 6 "0 22 * * fri  disable_wifi.sh".toList)) } ∧
      startsWord ("0 22 * * fri  disable_wifi.sh".toList.drop
        (startOfWord 6 "0 22 * * fri  disable_wifi.sh".toList)) ∧
      "0 22 * * fri  disable_wifi.sh".toList.drop
        (startOfWord 6 "0 22 * * fri  disable_wifi.sh".toList) ≠ [] :=
  main_split_disposition_from_fifth_word "0 22 * * fri  disable_wifi.sh".toList
    (by decide) (by decide) (by decide)

/-- C17 (counterexample): on `"0 22 * * fri  disable_wifi.sh"`, six words with two
spaces before the sixth, the disposition is `" disable_wifi.sh"`, one space longer than
the suffix `"disable_wifi.sh"` that begins at the sixth word. -/
theorem main_split_two_spaces_before_sixth_word :
    6 ≤ wordCount "0 22 * * fri  disable_wifi.sh".toList ∧
      "0 22 * * fri  disable_wifi.sh".toList.drop
          (startOfWord 6 "0 22 * * fri  disable_wifi.sh".toList) =
        "disable_wifi.sh".toList ∧
      main_split "0 22 * * fri  disable_wifi.sh".toList =
        .ok { schedule := "0 0 22 * * fri".toList,
              disposition := some " disable_wifi.sh".toList } ∧
      main_split "0 22 * * fri  disable_wifi.sh".toList ≠
        .ok { schedule := "0 0 22 * * fri".toList,
              disposition := some ("0 22 * * fri  disable_wifi.sh".toList.drop
                (startOfWord 6 "0 22 * * fri  disable_wifi.sh".toList)) } := by
  refine ⟨by decide, by rfl, by rfl, ?_⟩
  intro h
  have h2 : main_split "0 22 * * fri  disable_wifi.sh".toList =
      .ok { schedule := "0 0 22 * * fri".toList,
            disposition := some " disable_wifi.sh".toList } := by rfl
  rw [h2] at h
  simp only [Except.ok.injEq, Split.mk.injEq, Option.some.injEq, true_and] at h
  revert h
  decide

/-! ## The stored civil time -/

/-- On return 1 the stored year, month, day and hour are in range and the second is 0;
the stored minute is whatever `extract_minute` read. -/
theorem parse_one_fields (string : List Char) (past : Nat → Char) (current_time ts : Tm)
    (h : (try_to_parse_string_by_iso8601 string past current_time ts).1 = some 1) :
    1900 ≤ (try_to_parse_string_by_iso8601 string past current_time ts).2.tm_year + 1900 ∧
      (try_to_parse_string_by_iso8601 string past current_time ts).2.tm_year + 1900 ≤ 2038 ∧
      1 ≤ (try_to_parse_string_by_iso8601 string past current_time ts).2.tm_mon + 1 ∧
      (try_to_parse_string_by_iso8601 string past current_time ts).2.tm_mon + 1 ≤ 12 ∧
      1 ≤ (try_to_parse_string_by_iso8601 string past current_time ts).2.tm_mday ∧
      (try_to_parse_string_by_iso8601 string past current_time ts).2.tm_mday ≤ 31 ∧
      0 ≤ (try_to_parse_string_by_iso8601 string past current_time ts).2.tm_hour ∧
      (try_to_parse_string_by_iso8601 string past current_time ts).2.tm_hour ≤ 23 ∧
      (try_to_parse_string_by_iso8601 string past current_time ts).2.tm_sec = 0 := by
  unfold try_to_parse_string_by_iso8601 at h ⊢
  cases hd : time_delimiter_pos string with
  | none => rw [hd] at h; simp at h
  | some idx =>
    rw [hd] at h
    simp only [] at h ⊢
    by_cases hl : layout_test string idx = true
    · rw [if_pos hl] at h ⊢
      by_cases hr : fields_in_range (extract_year string past)
          (extract_month string past (index_offset_of idx))
          (extract_day string past (index_offset_of idx))
          (extract_hour string past (index_offset_of idx)) = true
      · rw [if_pos hr]
        simp only [fields_in_range, decide_eq_true_eq] at hr
        refine ⟨?_, ?_, ?_, ?_, ?_, ?_, ?_, ?_, ?_⟩ <;> simp only <;> omega
      · rw [if_neg hr] at h; simp at h
    · rw [if_neg hl] at h; simp at h

/-- C12: on `"20190208T1299"` and on `"2019-02-08T12:-5"` the parser returns 1 and
stores the minute 99, respectively -5: the minute of the stored civil time is not kept
within 0..59. -/
theorem parse_minute_out_of_range :
    try_to_parse_string_by_iso8601 "20190208T1299".toList sample_past sample_tm sample_tm =
        (some 1, { sample_tm with tm_year := 119, tm_mon := 1, tm_mday := 8, tm_hour := 12,
                                  tm_min := 99, tm_sec := 0 }) ∧
      try_to_parse_string_by_iso8601 "2019-02-08T12:-5".toList sample_past sample_tm
          sample_tm =
        (some 1, { sample_tm with tm_year := 119, tm_mon := 1, tm_mday := 8, tm_hour := 12,
                                  tm_min := -5, tm_sec := 0 }) := by
  constructor <;> decide

/-! ## The delimiter -/

theorem strchr_eq_find_first (s : List Char) (hs : NUL ∉ s) (c : Char) :
    strchr s c = find_first (fun x => decide (x = c)) s := by
  induction s with
  | nil => rfl
  | cons x xs ih =>
    have hx : x ≠ NUL := fun e => hs (by simp [e])
    have hxs : NUL ∉ xs := fun e => hs (List.mem_cons_of_mem _ e)
    by_cases hc : x = c
    · simp [strchr, find_first, hc]
    · simp [strchr, find_first, hc, hx, ih hxs]

/-- C13 (amended): on a reference string (a list without NUL) the delimiter offset the
parser uses is the offset of the first space when the string holds a space, and the
offset of the first `T` only when it holds no space. -/
theorem time_delimiter_space_before_T (s : List Char) (hs : NUL ∉ s) :
    time_delimiter_pos s =
      match find_first (fun x => decide (x = ' ')) s with
      | some i => some i
      | none => find_first (fun x => decide (x = 'T')) s := by
  simp only [time_delimiter_pos, strchr_eq_find_first s hs]

theorem time_delimiter_space_before_T_witness :
    time_delimiter_pos "2019-02-08T12:11 x".toList =
      match find_first (fun x => decide (x = ' ')) "2019-02-08T12:11 x".toList with
      | some i => some i
      | none => find_first (fun x => decide (x = 'T')) "2019-02-08T12:11 x".toList :=
  time_delimiter_space_before_T "2019-02-08T12:11 x".toList (by decide)

/-- C13 (counterexample): in `"2019-02-08T12:11 x"` the first space or `T` is the `T`
at offset 10, but the parser takes the space at offset 16 as the delimiter (and so
fails its layout test); in `"T2345678 1211"` the first is the `T` at offset 0, but the
parser takes the space at offset 8. -/
theorem time_delimiter_not_first_of_either :
    first_space_or_T "2019-02-08T12:11 x".toList = some 10 ∧
      time_delimiter_pos "2019-02-08T12:11 x".toList = some 16 ∧
      first_space_or_T "T2345678 1211".toList = some 0 ∧
      time_delimiter_pos "T2345678 1211".toList = some 8 := by
  decide

/-! ## Offsets read by the parser -/

/-- C19: `"20190208T12:"` (length 12) and `"2019-02-08T12:"` (length 14) pass the test of
line 93, have a colon behind the hour, and the parser then reads the offsets 13 and 15,
one place past the terminator of each string. -/
theorem parse_reads_past_terminator (past : Nat → Char) :
    time_delimiter_pos "20190208T12:".toList = some 8 ∧
      layout_test "20190208T12:".toList 8 = true ∧
      strlen "20190208T12:".toList = 12 ∧
      13 ∈ parse_read_offsets "20190208T12:".toList past (index_offset_of 8) ∧
      time_delimiter_pos "2019-02-08T12:".toList = some 10 ∧
      layout_test "2019-02-08T12:".toList 10 = true ∧
      strlen "2019-02-08T12:".toList = 14 ∧
      15 ∈ parse_read_offsets "2019-02-08T12:".toList past (index_offset_of 10) := by
  have h1 : memAt "20190208T12:".toList past 11 = ':' := by rfl
  have h2 : memAt "2019-02-08T12:".toList past 13 = ':' := by rfl
  refine ⟨by decide, by decide, by decide, ?_, by decide, by decide, by decide, ?_⟩
  · rw [parse_read_offsets, index_offset_8, if_pos h1]; simp
  · rw [parse_read_offsets, index_offset_10, if_pos h2]; simp

/-! ## Date layout and time-of-day layout -/

/-- What the parser returns once the five fields are read as the digit pairs of the
input and the test of line 93 has passed. -/
theorem parse_datetime_string (separated colon : Bool) (d : Char)
    (year month day hour minute : Nat) (past : Nat → Char) (current_time ts : Tm)
    (hd : d = 'T' ∨ d = ' ') :
    try_to_parse_string_by_iso8601 (datetime_string separated colon d year month day hour minute)
        past current_time ts =
      if fields_in_range
          (atoi [digitChar (year / 1000), digitChar (year / 100), digitChar (year / 10),
            digitChar year, NUL])
          (atoi [digitChar (month / 10), digitChar month, NUL])
          (atoi [digitChar (day / 10), digitChar day, NUL])
          (atoi [digitChar (hour / 10), digitChar hour, NUL]) = true then
        (some 1,
          { ts with
            tm_gmtoff := current_time.tm_gmtoff
            tm_zone := current_time.tm_zone
            tm_isdst := current_time.tm_isdst
            tm_year := atoi [digitChar (year / 1000), digitChar (year / 100),
              digitChar (year / 10), digitChar year, NUL] - 1900
            tm_mon := atoi [digitChar (month / 10), digitChar month, NUL] - 1
            tm_mday := atoi [digitChar (day / 10), digitChar day, NUL]
            tm_hour := atoi [digitChar (hour / 10), digitChar hour, NUL]
            tm_min := atoi [digitChar (minute / 10), digitChar minute, NUL]
            tm_sec := 0 })
      else (some 0, ts) := by
  have hT : ('T' : Char) ≠ ':' := by decide
  have hS : (' ' : Char) ≠ ':' := by decide
  rcases hd with rfl | rfl <;> cases separated <;> cases colon <;>
    simp [datetime_string, date_part, time_part, try_to_parse_string_by_iso8601,
      time_delimiter_pos, strchr, layout_test, strlen, index_offset_of, extract_year,
      extract_month, extract_day, extract_hour, extract_minute, memAt_cons_zero,
      memAt_cons_succ, pad2, pad4, digitChar_ne_space, digitChar_ne_T, digitChar_ne_nul,
      digitChar_ne_colon, T_ne_space, T_ne_nul, minus_ne_space, minus_ne_nul, minus_ne_T,
      space_ne_nul, colon_ne_space, colon_ne_nul]

/-- C14: for every year, month, day, hour and minute written as digit pairs (four
digits for the year) and each delimiter `T` or space, the parser gives one and the same
result (return value and stored fields) on `YYYYMMDD d HHMM`, `YYYYMMDD d HH:MM`,
`YYYY-MM-DD d HHMM` and `YYYY-MM-DD d HH:MM`. -/
theorem parse_time_layout_independent (d : Char) (year month day hour minute : Nat)
    (past : Nat → Char) (current_time ts : Tm) (hd : d = 'T' ∨ d = ' ') :
    try_to_parse_string_by_iso8601 (datetime_string false true d year month day hour minute)
        past current_time ts =
      try_to_parse_string_by_iso8601 (datetime_string false false d year month day hour minute)
        past current_time ts ∧
    try_to_parse_string_by_iso8601 (datetime_string true false d year month day hour minute)
        past current_time ts =
      try_to_parse_string_by_iso8601 (datetime_string false false d year month day hour minute)
        past current_time ts ∧
    try_to_parse_string_by_iso8601 (datetime_string true true d year month day hour minute)
        past current_time ts =
      try_to_parse_string_by_iso8601 (datetime_string false false d year month day hour minute)
        past current_time ts := by
  simp only [parse_datetime_string _ _ d year month day hour minute past current_time ts hd,
    and_self]

theorem parse_time_layout_independent_witness :
    try_to_parse_string_by_iso8601 "20190208T12:11".toList sample_past sample_tm sample_tm =
      try_to_parse_string_by_iso8601 "20190208T1211".toList sample_past sample_tm sample_tm ∧
    try_to_parse_string_by_iso8601 "2019-02-08T1211".toList sample_past sample_tm sample_tm =
      try_to_parse_string_by_iso8601 "20190208T1211".toList sample_past sample_tm sample_tm ∧
    try_to_parse_string_by_iso8601 "2019-02-08T12:11".toList sample_past sample_tm sample_tm =
      try_to_parse_string_by_iso8601 "20190208T1211".toList sample_past sample_tm sample_tm :=
  parse_time_layout_independent 'T' 2019 2 8 12 11 sample_past sample_tm sample_tm
    (Or.inl rfl)

/-! ## The start instant in `main` -/

/-- C15: whenever the parser returns 0 on the reference string, `main` takes the start
instant from the clock alone (current local time, seconds set to 0, current DST flag,
through `mktime`) and selects ISO-8601 output; two runs under one clock snapshot with
different malformed strings (and different uninitialised locals) end in the same
state. -/
theorem main_reference_malformed (host : Host) (past1 past2 : Nat → Char)
    (s1 s2 : List Char) (ts1 ts2 : Tm) (cur1 cur2 : Int)
    (h1 : (try_to_parse_string_by_iso8601 s1 past1 (host.localtime host.time) ts1).1 = some 0)
    (h2 : (try_to_parse_string_by_iso8601 s2 past2 (host.localtime host.time) ts2).1 = some 0) :
    main_reference host past1 (some s1) ts1 cur1 =
        some { cur := (host.mktime { host.localtime host.time with
                        tm_sec := 0, tm_isdst := (host.localtime host.time).tm_isdst }).1,
               use_iso8601_datetime_format := 1,
               ts := (host.mktime { host.localtime host.time with
                        tm_sec := 0, tm_isdst := (host.localtime host.time).tm_isdst }).2 } ∧
      main_reference host past2 (some s2) ts2 cur2 =
        main_reference host past1 (some s1) ts1 cur1 := by
  have key : ∀ (p : Nat → Char) (s : List Char) (t : Tm) (c : Int),
      (try_to_parse_string_by_iso8601 s p (host.localtime host.time) t).1 = some 0 →
      main_reference host p (some s) t c = some (start_from_now host 1) := by
    intro p s t c h
    unfold main_reference
    rcases hp : try_to_parse_string_by_iso8601 s p (host.localtime host.time) t with ⟨r, t1⟩
    rw [hp] at h
    simp only at h
    subst h
    simp [hp]
  rw [key _ _ _ _ h1, key _ _ _ _ h2]
  exact ⟨rfl, rfl⟩

theorem main_reference_malformed_witness :
    main_reference sample_host sample_past (some "9999-99-99T99:99".toList) sample_tm 0 =
        some { cur := (sample_host.mktime { sample_host.localtime sample_host.time with
                        tm_sec := 0,
                        tm_isdst := (sample_host.localtime sample_host.time).tm_isdst }).1,
               use_iso8601_datetime_format := 1,
               ts := (sample_host.mktime { sample_host.localtime sample_host.time with
                        tm_sec := 0,
                        tm_isdst := (sample_host.localtime sample_host.time).tm_isdst }).2 } ∧
      main_reference sample_host sample_past (some "99990208T1211".toList) sample_tm 7 =
        main_reference sample_host sample_past (some "9999-99-99T99:99".toList) sample_tm 0 :=
  main_reference_malformed sample_host sample_past sample_past "9999-99-99T99:99".toList
    "99990208T1211".toList sample_tm sample_tm 0 7 (by decide) (by decide)

/-- C16 (amended): without a reference argument `main` computes the same `cur` and `ts`
as in the branch for a malformed reference string under the same clock snapshot, but
it leaves `use_iso8601_datetime_format = 0` (numeric output) where the malformed branch
sets it to 1. -/
theorem main_reference_no_argument (host : Host) (past past2 : Nat → Char) (s : List Char)
    (ts ts2 : Tm) (cur cur2 : Int)
    (h : (try_to_parse_string_by_iso8601 s past2 (host.localtime host.time) ts2).1 = some 0) :
    ∃ a b : Start, main_reference host past none ts cur = some a ∧
      main_reference host past2 (some s) ts2 cur2 = some b ∧
      a.cur = b.cur ∧ a.ts = b.ts ∧
      a.cur = (host.mktime { host.localtime host.time with
                  tm_sec := 0, tm_isdst := (host.localtime host.time).tm_isdst }).1 ∧
      a.use_iso8601_datetime_format = 0 ∧ b.use_iso8601_datetime_format = 1 := by
  refine ⟨start_from_now host 0, start_from_now host 1, rfl, ?_, rfl, rfl, rfl, rfl, rfl⟩
  unfold main_reference
  rcases hp : try_to_parse_string_by_iso8601 s past2 (host.localtime host.time) ts2 with ⟨r, t1⟩
  rw [hp] at h
  simp only at h
  subst h
  simp [hp]

theorem main_reference_no_argument_witness :
    ∃ a b : Start, main_reference sample_host sample_past none sample_tm 0 = some a ∧
      main_reference sample_host sample_past (some "9999-99-99T99:99".toList) sample_tm 0 =
        some b ∧
      a.cur = b.cur ∧ a.ts = b.ts ∧
      a.cur = (sample_host.mktime { sample_host.localtime sample_host.time with
                  tm_sec := 0,
                  tm_isdst := (sample_host.localtime sample_host.time).tm_isdst }).1 ∧
      a.use_iso8601_datetime_format = 0 ∧ b.use_iso8601_datetime_format = 1 :=
  main_reference_no_argument sample_host sample_past sample_past "9999-99-99T99:99".toList
    sample_tm sample_tm 0 0 (by decide)

/-- C16 (counterexample): under the sample clock, `main` without a reference argument
ends with `use_iso8601_datetime_format = 0`, while with the malformed reference
`9999-99-99T99:99` it ends with 1, so the two runs do not end in the same state. -/
theorem main_reference_no_argument_not_iso :
    (main_reference sample_host sample_past none sample_tm 0).map
        (fun a => a.use_iso8601_datetime_format) = some 0 ∧
      (main_reference sample_host sample_past (some "9999-99-99T99:99".toList) sample_tm
          0).map (fun a => a.use_iso8601_datetime_format) = some 1 ∧
      main_reference sample_host sample_past none sample_tm 0 ≠
        main_reference sample_host sample_past (some "9999-99-99T99:99".toList) sample_tm 0 := by
  decide

/-! ## Lines longer than the buffers -/

theorem nul_not_mem_long_line (n : Nat) : NUL ∉ long_line n := by
  have h1 : NUL ∉ "0 22 * * fri ".toList := by decide
  have h2 : NUL ≠ 'a' := by decide
  intro h
  rcases List.mem_append.mp h with h | h
  · exact h1 h
  · exact h2 (List.eq_of_mem_replicate h)

theorem length_long_line (n : Nat) : (long_line n).length = 13 + n := by
  simp [long_line]
  omega

theorem wordCount_prefixed (line : List Char) :
    wordCount ('0' :: ' ' :: line) = 1 + wordCount line := by
  simp [wordCount, wordCountAux]

theorem endOfWord_five_long_line (n : Nat) : endOfWord 5 (long_line (n + 1)) = 12 := by
  have ha : ('a' : Char) ≠ ' ' := by decide
  simp [endOfWord, long_line, List.takeWhile_cons, isSp, nonSp]

theorem wordCountAux_true_replicate (n : Nat) :
    wordCountAux true (List.replicate n 'a') = 0 := by
  induction n with
  | zero => rfl
  | succ k ih =>
    have ha : ('a' : Char) ≠ ' ' := by decide
    simp [List.replicate_succ, wordCountAux, ha, ih]

theorem wordCount_long_line (n : Nat) : wordCount (long_line (n + 1)) = 6 := by
  have ha : ('a' : Char) ≠ ' ' := by decide
  simp [wordCount, wordCountAux, long_line, List.replicate_succ, ha,
    wordCountAux_true_replicate]

/-- A line of more than 997 characters overruns `cron_line_schedule` at lines 204-205. -/
theorem main_split_overrun (line : List Char) (hnul : NUL ∉ line)
    (hlong : 997 < line.length) : main_split line = .error .overrun := by
  unfold main_split
  rw [if_pos (by rw [strlen_eq_length line hnul, buffer_size]; omega)]

/-- C1: the line `"0 22 * * fri "` followed by 1187 letters `a` has six words and
1200 characters, so `"0 " ++ line` with its terminator takes 1203 bytes: lines 204-205
write past the end of the 1000-byte `cron_line_schedule`, and no schedule and
disposition as the claim describes are defined. -/
theorem main_split_six_words_overrun :
    NUL ∉ long_line 1187 ∧ wordCount (long_line 1187) = 6 ∧
      2 + strlen (long_line 1187) + 1 = 1203 ∧ buffer_size = 1000 ∧
      main_split (long_line 1187) = .error .overrun := by
  refine ⟨nul_not_mem_long_line _, wordCount_long_line 1186, ?_, rfl, ?_⟩
  · rw [strlen_eq_length _ (nul_not_mem_long_line _), length_long_line]
  · exact main_split_overrun _ (nul_not_mem_long_line _) (by rw [length_long_line]; omega)

/-- C18: on the line `"0 22 * * fri "` followed by 2000 letters `a` the six steps of
the walk over `"0 " ++ line` all succeed (the sixth does not return -1), but the 2016
bytes of `"0 " ++ line` and its terminator do not fit the 1000-byte
`cron_line_schedule`, nor do the 2001 bytes of the disposition fit
`cron_line_disposition`: the buffers are overrun and no schedule and disposition that
spell `"0 " ++ line` are defined. -/
theorem main_split_lossless_overrun :
    NUL ∉ long_line 2000 ∧
      (∃ st, walk_loop ('0' :: ' ' :: long_line 2000) 6 0 walk_init = .ok st ∧
        st.beginning_of_next_word_boundary ≠ -1) ∧
      2 + strlen (long_line 2000) + 1 = 2016 ∧
      ((long_line 2000).drop (endOfWord 5 (long_line 2000) + 1)).length + 1 = 2001 ∧
      buffer_size = 1000 ∧
      main_split (long_line 2000) = .error .overrun := by
  have hnul := nul_not_mem_long_line 2000
  have hb : NUL ∉ ('0' :: ' ' :: long_line 2000) := nul_not_mem_prefixed hnul
  have hsw : startsWord (('0' :: ' ' :: long_line 2000).drop 0) := by simp [startsWord]
  have hwc : 5 + 2 ≤ wordCount (('0' :: ' ' :: long_line 2000).drop 0) := by
    rw [List.drop_zero, wordCount_prefixed, wordCount_long_line 1999]
  obtain ⟨q, r, hrun, _, _, _⟩ := walk_loop_ok _ hb 5 0 0 walk_init rfl hsw hwc
  have he : endOfWord 5 (long_line 2000) = 12 := endOfWord_five_long_line 1999
  refine ⟨hnul, ⟨_, hrun, by simp only; omega⟩, ?_, ?_, rfl, ?_⟩
  · rw [strlen_eq_length _ hnul, length_long_line]
  · rw [he, List.length_drop, length_long_line]
  · exact main_split_overrun _ hnul (by rw [length_long_line]; omega)

end CronNext
